import Mathlib

/-!
# Wallet ledger chaincode (`rc-chaincode.go`)

A shallow embedding of the chaincode `rc-chaincode.go` (package `main`) and a
verification development over it.

Modelling conventions

* Go `string` and `[]byte` values are Lean `String`s, that is, valid UTF-8 text
  (`json.Marshal` rewrites bytes that are not valid UTF-8 to U+FFFD; such strings are
  outside the model); the codecs work on the underlying `List Char`.
* `uint64` values are natural numbers, with wrap-around written `% 2 ^ 64`;
  `int` is the 64-bit signed integer, modelled in `Int` with `wrapInt64`.
* `strconv` and `encoding/json` are modelled as far as the chaincode uses them: decimal
  formatting and parsing, the encoder for `Wallet`, and the decoder into a `Wallet`
  (syntax check of the whole input, members stored in input order, field names matched
  without regard to case, values of the wrong type skipped). Control characters other
  than newline, carriage return and tab are written as `\u00XX`, as the encoder did
  before Go 1.22; the decoder reads either form.
* The ledger is a revision log; `GetState` reads the newest revision of a key,
  a successful `PutState` appends one, `GetHistoryForKey` lists a key's
  revisions oldest first. `GetState` itself does not fail; which `PutState` and history
  calls fail is given by an `Env`.
* Every chaincode function takes the ledger and returns the response together with the
  ledger after the call.
* `fmt.Printf` output is not part of the model.
-/

namespace RcChaincode

set_option maxRecDepth 1000000

/-! ## `strconv` -/

/-- Largest `uint64`. -/
def maxUint64 : Nat := 2 ^ 64 - 1

/-- The character of a decimal digit `d < 10`. -/
def digitChar (d : Nat) : Char := Char.ofNat (48 + d)

/-- Whether a character is one of `'0'..'9'`. -/
def isDigit (c : Char) : Bool := decide (48 ≤ c.toNat) && decide (c.toNat ≤ 57)

/-- Decimal digits of `n`, most significant first; `fuel` bounds the number of digits. -/
def decDigits : Nat → Nat → List Char
  | 0, _ => []
  | fuel + 1, n =>
    if n < 10 then [digitChar n] else decDigits fuel (n / 10) ++ [digitChar (n % 10)]

/-- Model of `strconv.FormatUint(n, 10)` as a character list. -/
def formatUintChars (n : Nat) : List Char := decDigits (n + 1) n

/-- Model of `strconv.FormatUint(n, 10)`, also what `fmt.Sprint` prints for a `uint64`. -/
def formatUint (n : Nat) : String := String.mk (formatUintChars n)

/-- Outcome class of a `strconv` parse: `nil`, `ErrSyntax` or `ErrRange`. -/
inductive NumErr where
  | ok
  | syntaxErr
  | rangeErr
  deriving DecidableEq, Repr

/-- The digit loop of `strconv.ParseUint(s, 10, 64)`: a non-digit gives `(0, ErrSyntax)`,
    an overflow gives `(maxUint64, ErrRange)` at once. -/
def parseUintLoop : List Char → Nat → Nat × NumErr
  | [], n => (n, NumErr.ok)
  | c :: cs, n =>
    if isDigit c then
      if n ≥ maxUint64 / 10 + 1 then (maxUint64, NumErr.rangeErr)
      else
        let n1 := n * 10 + (c.toNat - 48)
        if n1 > maxUint64 then (maxUint64, NumErr.rangeErr)
        else parseUintLoop cs n1
    else (0, NumErr.syntaxErr)

/-- Model of `strconv.ParseUint(s, 10, 64)`: value and error class. -/
def parseUintChars (s : List Char) : Nat × NumErr :=
  match s with
  | [] => (0, NumErr.syntaxErr)
  | _ => parseUintLoop s 0

/-- Model of `strconv.ParseUint(s, 10, 64)` on a string. -/
def parseUint (s : String) : Nat × NumErr := parseUintChars s.data

/-- Model of `strconv.ParseInt(s, 10, 0)` with 64-bit `int`: value and error class. -/
def parseIntChars (s : List Char) : Int × NumErr :=
  match s with
  | [] => (0, NumErr.syntaxErr)
  | c :: cs =>
    let neg := decide (c = '-')
    let body := if c = '+' ∨ c = '-' then cs else c :: cs
    let r := parseUintChars body
    if r.2 = NumErr.syntaxErr then (0, NumErr.syntaxErr)
    else if !neg && decide (r.1 ≥ 2 ^ 63) then (2 ^ 63 - 1, NumErr.rangeErr)
    else if neg && decide (r.1 > 2 ^ 63) then (-(2 ^ 63), NumErr.rangeErr)
    else if r.2 = NumErr.rangeErr then
      (if neg then -(2 ^ 63) else 2 ^ 63 - 1, NumErr.rangeErr)
    else (if neg then -(r.1 : Int) else (r.1 : Int), NumErr.ok)

/-- Model of `strconv.Atoi(s)`: its fast path for short inputs computes the same value and error
    as `ParseInt(s, 10, 0)`. -/
def atoi (s : String) : Int × NumErr := parseIntChars s.data

/-- Two's-complement wrap of an integer into the range of a 64-bit `int`. -/
def wrapInt64 (i : Int) : Int := (i + 2 ^ 63) % 2 ^ 64 - 2 ^ 63

/-- Model of `strconv.Itoa(i)`. -/
def itoa (i : Int) : String :=
  if i < 0 then String.mk ('-' :: formatUintChars i.natAbs) else formatUint i.natAbs

/-! ## Data model -/

/-- The Go struct `Transaction`. -/
structure Transaction where
  Trader : String
  Amount : Nat
  Date : String
  TxType : String
  deriving DecidableEq, Repr

/-- The Go struct `Wallet`. -/
structure Wallet where
  Balance : Nat
  TxInfo : Transaction
  deriving DecidableEq, Repr

/-- The zero value of `Wallet` (`var w Wallet`, `Wallet{}`). -/
def Wallet.zero : Wallet := ⟨0, ⟨"", 0, "", ""⟩⟩

/-- Both numeric fields are representable as `uint64`. -/
def Wallet.wf (w : Wallet) : Prop := w.Balance < 2 ^ 64 ∧ w.TxInfo.Amount < 2 ^ 64

instance (w : Wallet) : Decidable w.wf := by unfold Wallet.wf; infer_instance

/-! ## `encoding/json`: encoder -/

/-- Lower-case hexadecimal digit of `d < 16`. -/
def hexDigit (d : Nat) : Char := if d < 10 then Char.ofNat (48 + d) else Char.ofNat (87 + d)

/-- Encoding of one character inside a JSON string literal, as `json.Marshal` writes it
    (HTML escaping on): quote and backslash are backslash-escaped, newline, carriage return
    and tab have short escapes, other control characters and `<`, `>`, `&` are `\u00XX`,
    U+2028 and U+2029 are escaped, everything else is copied. -/
def escapeChar (c : Char) : List Char :=
  if c = '"' then ['\\', '"']
  else if c = '\\' then ['\\', '\\']
  else if c = '\n' then ['\\', 'n']
  else if c = '\r' then ['\\', 'r']
  else if c = '\t' then ['\\', 't']
  else if c.toNat < 32 ∨ c = '<' ∨ c = '>' ∨ c = '&' then
    ['\\', 'u', '0', '0', hexDigit (c.toNat / 16), hexDigit (c.toNat % 16)]
  else if c.toNat = 0x2028 then ['\\', 'u', '2', '0', '2', '8']
  else if c.toNat = 0x2029 then ['\\', 'u', '2', '0', '2', '9']
  else [c]

/-- Body of a JSON string literal, without the surrounding quotes. -/
def escapeChars : List Char → List Char
  | [] => []
  | c :: cs => escapeChar c ++ escapeChars cs

/-- A JSON string literal. -/
def encodeString (s : String) : List Char := '"' :: (escapeChars s.data ++ ['"'])

/-- One object member: the quoted field name, a colon and the encoded value. -/
def encodeMember (name : String) (value : List Char) : List Char :=
  encodeString name ++ ':' :: value

/-- Model of `json.Marshal` of a `Transaction`. -/
def encodeTransaction (t : Transaction) : List Char :=
  '{' :: (encodeMember "trader" (encodeString t.Trader) ++ ',' ::
    (encodeMember "amount" (formatUintChars t.Amount) ++ ',' ::
    (encodeMember "date" (encodeString t.Date) ++ ',' ::
    (encodeMember "txType" (encodeString t.TxType) ++ ['}']))))

/-- Model of `json.Marshal` of a `Wallet`. The tag of `TxInfo` lacks its closing quote, so
    `reflect.StructTag.Get` finds no `json` key in it and the Go field name is used. -/
def encodeWallet (w : Wallet) : List Char :=
  '{' :: (encodeMember "balance" (formatUintChars w.Balance) ++ ',' ::
    (encodeMember "TxInfo" (encodeTransaction w.TxInfo) ++ ['}']))

/-- Model of `json.Marshal(w)` for a `Wallet`, as the byte string handed to `PutState`. -/
def jsonMarshalWallet (w : Wallet) : String := String.mk (encodeWallet w)

/-! ## `encoding/json`: decoder

`json.Unmarshal` first checks that the whole input is one well-formed JSON value and
leaves the destination untouched when it is not; it then stores the members of the
value into the destination in input order. The model parses the input to a value tree
(the well-formedness check) and then stores the tree into the struct. -/

/-- A parsed JSON value; a number keeps its literal text. -/
inductive JSON where
  | null
  | bool (b : Bool)
  | num (lit : List Char)
  | str (s : List Char)
  | arr (xs : List JSON)
  | obj (kvs : List (List Char × JSON))

/-- JSON insignificant whitespace: space, tab, carriage return, line feed. -/
def isWs (c : Char) : Bool :=
  decide (c = ' ') || decide (c = '\t') || decide (c = '\r') || decide (c = '\n')

/-- Drop leading whitespace. -/
def skipWs : List Char → List Char
  | [] => []
  | c :: cs => if isWs c then skipWs cs else c :: cs

/-- Value of a hexadecimal digit, either case. -/
def hexVal (c : Char) : Option Nat :=
  if isDigit c then some (c.toNat - 48)
  else if 97 ≤ c.toNat ∧ c.toNat ≤ 102 then some (c.toNat - 87)
  else if 65 ≤ c.toNat ∧ c.toNat ≤ 70 then some (c.toNat - 55)
  else none

/-- Value of four hexadecimal digits. -/
def hex4 (a b c d : Char) : Option Nat :=
  match hexVal a, hexVal b, hexVal c, hexVal d with
  | some x, some y, some z, some w => some (((x * 16 + y) * 16 + z) * 16 + w)
  | _, _, _, _ => none

/-- The Unicode replacement character U+FFFD. -/
def replacementChar : Char := Char.ofNat 0xFFFD

/-- Emits U+FFFD for a pending high surrogate whose partner did not follow. -/
def flushPending (pending : Option Nat) (acc : List Char) : List Char :=
  match pending with
  | none => acc
  | some _ => acc ++ [replacementChar]

/-- Reads the rest of a string literal after its opening quote: the decoded text
    (appended to `acc`) and the input after the closing quote. A raw control character
    or an unknown escape is a syntax error. `pending` holds a high surrogate read from a
    `\u` escape: it combines with a low surrogate escape that follows at once, and a
    surrogate half without its partner decodes to U+FFFD. -/
def parseStrBody : List Char → Option Nat → List Char → Option (List Char × List Char)
  | [], _, _ => none
  | c :: r, p, acc =>
    if c = '"' then some (flushPending p acc, r)
    else if c = '\\' then
      match r with
      | [] => none
      | e :: r1 =>
        if e = '"' then parseStrBody r1 none (flushPending p acc ++ ['"'])
        else if e = '\\' then parseStrBody r1 none (flushPending p acc ++ ['\\'])
        else if e = '/' then parseStrBody r1 none (flushPending p acc ++ ['/'])
        else if e = 'b' then parseStrBody r1 none (flushPending p acc ++ [Char.ofNat 8])
        else if e = 'f' then parseStrBody r1 none (flushPending p acc ++ [Char.ofNat 12])
        else if e = 'n' then parseStrBody r1 none (flushPending p acc ++ ['\n'])
        else if e = 'r' then parseStrBody r1 none (flushPending p acc ++ ['\r'])
        else if e = 't' then parseStrBody r1 none (flushPending p acc ++ ['\t'])
        else if e = 'u' then
          match r1 with
          | a :: b :: c1 :: d :: r2 =>
            match hex4 a b c1 d with
            | none => none
            | some rr =>
              if 0xD800 ≤ rr ∧ rr < 0xDC00 then parseStrBody r2 (some rr) (flushPending p acc)
              else if 0xDC00 ≤ rr ∧ rr < 0xE000 then
                match p with
                | some hi =>
                  parseStrBody r2 none
                    (acc ++ [Char.ofNat ((hi - 0xD800) * 1024 + (rr - 0xDC00) + 0x10000)])
                | none => parseStrBody r2 none (acc ++ [replacementChar])
              else parseStrBody r2 none (flushPending p acc ++ [Char.ofNat rr])
          | _ => none
        else none
    else if c.toNat < 32 then none
    else parseStrBody r none (flushPending p acc ++ [c])

/-- Optional exponent part of a number literal. -/
def parseExp (lit : List Char) (r : List Char) : Option (List Char × List Char) :=
  match r with
  | [] => some (lit, r)
  | c :: r1 =>
    if c = 'e' ∨ c = 'E' then
      match r1 with
      | [] => none
      | s :: r2 =>
        if s = '+' ∨ s = '-' then
          match r2.span isDigit with
          | ([], _) => none
          | (ds, r3) => some (lit ++ c :: s :: ds, r3)
        else
          match r1.span isDigit with
          | ([], _) => none
          | (ds, r3) => some (lit ++ c :: ds, r3)
    else some (lit, r)

/-- Optional fraction part of a number literal, then the exponent. -/
def parseFrac (lit : List Char) (r : List Char) : Option (List Char × List Char) :=
  match r with
  | [] => some (lit, r)
  | c :: r1 =>
    if c = '.' then
      match r1.span isDigit with
      | ([], _) => none
      | (ds, r2) => parseExp (lit ++ c :: ds) r2
    else parseExp lit r

/-- Integer part of a number literal after the optional sign: a lone `0` or a non-zero
    digit followed by digits. -/
def parseIntPart (sign : List Char) (r : List Char) : Option (List Char × List Char) :=
  match r with
  | [] => none
  | c :: r1 =>
    if c = '0' then parseFrac (sign ++ [c]) r1
    else if isDigit c then
      parseFrac (sign ++ c :: (r1.span isDigit).1) (r1.span isDigit).2
    else none

/-- A JSON number literal: its text and the remaining input. -/
def parseNumber (cs : List Char) : Option (List Char × List Char) :=
  match cs with
  | [] => none
  | c :: r => if c = '-' then parseIntPart [c] r else parseIntPart [] cs

/-- A value that is not an object, array or string: `true`, `false`, `null` or a number,
    starting with the character `c`. -/
def parseScalar (c : Char) (r : List Char) : Option (JSON × List Char) :=
  if c = 't' then
    match r with
    | c1 :: c2 :: c3 :: r1 =>
      if c1 = 'r' ∧ c2 = 'u' ∧ c3 = 'e' then some (JSON.bool true, r1) else none
    | _ => none
  else if c = 'f' then
    match r with
    | c1 :: c2 :: c3 :: c4 :: r1 =>
      if c1 = 'a' ∧ c2 = 'l' ∧ c3 = 's' ∧ c4 = 'e' then some (JSON.bool false, r1) else none
    | _ => none
  else if c = 'n' then
    match r with
    | c1 :: c2 :: c3 :: r1 =>
      if c1 = 'u' ∧ c2 = 'l' ∧ c3 = 'l' then some (JSON.null, r1) else none
    | _ => none
  else
    match parseNumber (c :: r) with
    | none => none
    | some (lit, r1) => some (JSON.num lit, r1)

mutual

/-- One JSON value at the head of the input (no leading whitespace). -/
def parseValue : Nat → List Char → Option (JSON × List Char)
  | 0, _ => none
  | _ + 1, [] => none
  | fuel + 1, c :: r =>
    if c = '{' then
      match skipWs r with
      | [] => none
      | c1 :: r1 => if c1 = '}' then some (JSON.obj [], r1) else parseMembers fuel (c1 :: r1) []
    else if c = '[' then
      match skipWs r with
      | [] => none
      | c1 :: r1 => if c1 = ']' then some (JSON.arr [], r1) else parseElems fuel (c1 :: r1) []
    else if c = '"' then
      match parseStrBody r none [] with
      | none => none
      | some (s, r1) => some (JSON.str s, r1)
    else parseScalar c r

/-- The members of an object from its first key on (no leading whitespace), up to and
    including the closing brace. -/
def parseMembers : Nat → List Char → List (List Char × JSON) → Option (JSON × List Char)
  | 0, _, _ => none
  | _ + 1, [], _ => none
  | fuel + 1, c :: r, acc =>
    if c = '"' then
      match parseStrBody r none [] with
      | none => none
      | some (k, r1) =>
        match skipWs r1 with
        | [] => none
        | c1 :: r2 =>
          if c1 = ':' then
            match parseValue fuel (skipWs r2) with
            | none => none
            | some (v, r3) =>
              match skipWs r3 with
              | [] => none
              | c2 :: r4 =>
                if c2 = ',' then parseMembers fuel (skipWs r4) (acc ++ [(k, v)])
                else if c2 = '}' then some (JSON.obj (acc ++ [(k, v)]), r4)
                else none
          else none
    else none

/-- The elements of an array from its first element on (no leading whitespace), up to
    and including the closing bracket. -/
def parseElems : Nat → List Char → List JSON → Option (JSON × List Char)
  | 0, _, _ => none
  | fuel + 1, cs, acc =>
    match parseValue fuel cs with
    | none => none
    | some (v, r1) =>
      match skipWs r1 with
      | [] => none
      | c2 :: r2 =>
        if c2 = ',' then parseElems fuel (skipWs r2) (acc ++ [v])
        else if c2 = ']' then some (JSON.arr (acc ++ [v]), r2)
        else none

end

/-- The well-formedness check of `json.Unmarshal`: the input is exactly one JSON value
    with optional surrounding whitespace. Every step of the parser consumes input, so
    `length + 1` steps of fuel are enough. -/
def parseJSON (cs : List Char) : Option JSON :=
  match parseValue (cs.length + 1) (skipWs cs) with
  | none => none
  | some (v, r) => if skipWs r = [] then some v else none

/-- ASCII lower-casing. -/
def asciiLower (c : Char) : Char :=
  if 65 ≤ c.toNat ∧ c.toNat ≤ 90 then Char.ofNat (c.toNat + 32) else c

/-- Whether an object key selects the struct field called `name`: `encoding/json` accepts
    the exact name and any case variant of it. -/
def keyMatches (key : List Char) (name : String) : Bool :=
  decide (key.map asciiLower = name.data.map asciiLower)

/-- Storing a JSON value into a `uint64` field: only an unsigned decimal literal in
    range is stored; `null` and values of another type leave the field as it is. -/
def decodeUint (v : JSON) (old : Nat) : Nat :=
  match v with
  | JSON.num lit => if (parseUintChars lit).2 = NumErr.ok then (parseUintChars lit).1 else old
  | _ => old

/-- Storing a JSON value into a `string` field. -/
def decodeString (v : JSON) (old : String) : String :=
  match v with
  | JSON.str s => String.mk s
  | _ => old

/-- Storing one object member into a `Transaction`. -/
def decodeTransactionField (t : Transaction) (kv : List Char × JSON) : Transaction :=
  if keyMatches kv.1 "trader" then { t with Trader := decodeString kv.2 t.Trader }
  else if keyMatches kv.1 "amount" then { t with Amount := decodeUint kv.2 t.Amount }
  else if keyMatches kv.1 "date" then { t with Date := decodeString kv.2 t.Date }
  else if keyMatches kv.1 "txType" then { t with TxType := decodeString kv.2 t.TxType }
  else t

/-- Storing a JSON value into a `Transaction` field. -/
def decodeTransaction (v : JSON) (t : Transaction) : Transaction :=
  match v with
  | JSON.obj kvs => kvs.foldl decodeTransactionField t
  | _ => t

/-- Storing one object member into a `Wallet`. -/
def decodeWalletField (w : Wallet) (kv : List Char × JSON) : Wallet :=
  if keyMatches kv.1 "balance" then { w with Balance := decodeUint kv.2 w.Balance }
  else if keyMatches kv.1 "TxInfo" then { w with TxInfo := decodeTransaction kv.2 w.TxInfo }
  else w

/-- Storing a JSON value into a `Wallet`. -/
def decodeWallet (v : JSON) (w : Wallet) : Wallet :=
  match v with
  | JSON.obj kvs => kvs.foldl decodeWalletField w
  | _ => w

/-- Model of `json.Unmarshal(data, &w)` with the returned error dropped, as every call site does:
    the result is the new content of `w`. -/
def jsonUnmarshalWallet (data : String) (w : Wallet) : Wallet :=
  match parseJSON data.data with
  | none => w
  | some v => decodeWallet v w

/-- The tree read from an encoded `Transaction`. -/
def transactionTree (t : Transaction) : JSON :=
  JSON.obj [("trader".data, JSON.str t.Trader.data),
    ("amount".data, JSON.num (formatUintChars t.Amount)),
    ("date".data, JSON.str t.Date.data),
    ("txType".data, JSON.str t.TxType.data)]

/-- The tree read from an encoded `Wallet`. -/
def walletTree (w : Wallet) : JSON :=
  JSON.obj [("balance".data, JSON.num (formatUintChars w.Balance)),
    ("TxInfo".data, transactionTree w.TxInfo)]

/-! ## The ledger seen through `shim.ChaincodeStubInterface` -/

/-- One committed revision of a key: the key, the identifier of the transaction that
    wrote it and the value written (`none`: a `nil` value, the key was deleted). -/
structure Rev where
  key : String
  TxId : String
  Value : Option String
  deriving DecidableEq, Repr

/-- The ledger: every revision of every key, oldest first. -/
abbrev Ledger := List Rev

/-- What the peer decides for an invocation: the transaction identifier and which stub
    calls return an error. `putFails n k` says whether the `n`-th `PutState` of the
    invocation (counted from 0), issued on key `k`, fails. -/
structure Env where
  txID : String
  putFails : Nat → String → Bool
  historyErr : String → Option String
  nextErr : String → Nat → Option String

/-- Model of `stub.GetState(key)`: the value of the newest revision of the key, `none` (Go `nil`)
    when the key was never written or was deleted. -/
def getState (l : Ledger) (k : String) : Option String :=
  l.foldl (fun cur r => if r.key = k then r.Value else cur) none

/-- Model of `stub.PutState(key, value)` as the `n`-th write of the invocation: `none` is a
    returned error, otherwise the ledger with the new revision. -/
def putState (env : Env) (l : Ledger) (n : Nat) (k : String) (v : String) : Option Ledger :=
  if env.putFails n k then none else some (l ++ [⟨k, env.txID, some v⟩])

/-- The revisions `stub.GetHistoryForKey(key)` iterates over. -/
def historyOf (l : Ledger) (k : String) : List Rev := l.filter (fun r => decide (r.key = k))

/-- A `peer.Response`: `shim.Success(payload)` (a `nil` payload is the empty string) or
    `shim.Error(msg)`. -/
inductive Response where
  | success (payload : String)
  | error (msg : String)
  deriving DecidableEq, Repr

/-- Whether a response is an error. -/
def Response.isError : Response → Bool
  | Response.success _ => false
  | Response.error _ => true

/-! ## The chaincode functions -/

/-- The Go function `init_wallet`. -/
def init_wallet (env : Env) (l : Ledger) (args : List String) : Response × Ledger :=
  match args with
  | [a0, a1, a2] =>
    let newWallet : Wallet :=
      { Balance := 0, TxInfo := { Trader := a1, Amount := 0, Date := a2, TxType := "10" } }
    match putState env l 0 a0 (jsonMarshalWallet newWallet) with
    | none => (Response.error ("Failed to create Wallet for '" ++ a0 ++ "'"), l)
    | some l1 => (Response.success "", l1)
  | _ => (Response.error "Incorrect number of arguments. Expecting 2", l)

/-- The Go function `publish`. -/
def publish (env : Env) (l : Ledger) (args : List String) : Response × Ledger :=
  match args with
  | [a0, a1, a2, a3] =>
    match getState l a1, getState l a0 with
    | none, _ => (Response.error "Could not locate Wallet 'admin'", l)
    | some _, none => (Response.error ("Could not locate Wallet '" ++ a0 ++ "'"), l)
    | some adminWalletAsBytes, some walletAsBytes =>
      let admin0 := jsonUnmarshalWallet adminWalletAsBytes Wallet.zero
      let target0 := jsonUnmarshalWallet walletAsBytes Wallet.zero
      let amount := (parseUint a2).1
      let admin_for_history : Wallet :=
        { Balance := (admin0.Balance + amount) % 2 ^ 64,
          TxInfo := { admin0.TxInfo with Trader := a0, Amount := amount, TxType := "0", Date := a3 } }
      let target : Wallet :=
        { Balance := (target0.Balance + amount) % 2 ^ 64,
          TxInfo := { target0.TxInfo with Trader := a1, Amount := amount, TxType := "0", Date := a3 } }
      match putState env l 0 a1 (jsonMarshalWallet admin_for_history) with
      | none => (Response.error "Currency issue failed.", l)
      | some l1 =>
        match putState env l1 1 a0 (jsonMarshalWallet target) with
        | none => (Response.error "Currency issue failed.", l1)
        | some l2 => (Response.success "", l2)
  | _ => (Response.error "Incorrect number of arguments. Expecting 4", l)

/-- The Go function `transfer`. The two write-failure messages format the method value
    `err.Error` with `%s`, which prints an address; the model keeps their fixed part. -/
def transfer (env : Env) (l : Ledger) (args : List String) : Response × Ledger :=
  match args with
  | [a0, a1, a2, a3, a4] =>
    match getState l a0, getState l a1 with
    | some senderAsBytes, some receiverAsBytes =>
      let amount := (parseUint a2).1
      let senderType := wrapInt64 ((atoi a3).1 + 1)
      let receiverType := itoa senderType
      let sender0 := jsonUnmarshalWallet senderAsBytes Wallet.zero
      let receiver0 := jsonUnmarshalWallet receiverAsBytes Wallet.zero
      if sender0.Balance < amount then
        (Response.error (a0 ++ " is not enough balance."), l)
      else
        let sender : Wallet :=
          { Balance := (sender0.Balance + 2 ^ 64 - amount) % 2 ^ 64,
            TxInfo := { sender0.TxInfo with Trader := a1, Amount := amount, TxType := a3, Date := a4 } }
        let receiver : Wallet :=
          { Balance := (receiver0.Balance + amount) % 2 ^ 64,
            TxInfo := { receiver0.TxInfo with
                        Trader := a0, Amount := amount, TxType := receiverType, Date := a4 } }
        match putState env l 0 a0 (jsonMarshalWallet sender) with
        | none => (Response.error "Currency transfer failed : ", l)
        | some l1 =>
          let txid := env.txID
          match putState env l1 1 a1 (jsonMarshalWallet receiver) with
          | none => (Response.error "Currency receipt failed.: ", l1)
          | some l2 => (Response.success txid, l2)
    | _, _ => (Response.error "Failed to fetch Wallet.", l)
  | _ => (Response.error "Incorrect number of arguments. Expecting 5", l)

/-- The Go function `get_account`. -/
def get_account (_env : Env) (l : Ledger) (args : List String) : Response × Ledger :=
  match args with
  | [a0] =>
    match getState l a0 with
    | none => (Response.error ("Could not locate Wallet '" ++ a0 ++ "'"), l)
    | some walletAsBytes =>
      let wallet := jsonUnmarshalWallet walletAsBytes Wallet.zero
      let balance := formatUint wallet.Balance
      (Response.success balance, l)
  | _ => (Response.error "Incorrect number of arguments. Expecting 1", l)

/-- The local Go struct `get_History` of `get_txList`. -/
structure GetHistory where
  TxId : String
  Value : Wallet
  deriving DecidableEq, Repr

/-- Model of `json.Unmarshal(value, &wallet)` on a revision value; a `nil` value is rejected as
    empty input and leaves `wallet` as it is. -/
def unmarshalValue (v : Option String) (wallet : Wallet) : Wallet :=
  match v with
  | none => wallet
  | some d => jsonUnmarshalWallet d wallet

/-- The `for resultsIterator.HasNext()` loop of `get_txList`: `i` counts the calls of
    `Next`, `wallet` is the variable shared by all iterations, `history` the slice built
    so far. An error of `Next` ends the loop with that error. -/
def historyLoop (env : Env) (key : String) :
    List Rev → Nat → Wallet → List GetHistory → Except String (List GetHistory)
  | [], _, _, history => Except.ok history
  | r :: rs, i, wallet, history =>
    match env.nextErr key i with
    | some e => Except.error e
    | none =>
      let wallet1 := unmarshalValue r.Value wallet
      match r.Value with
      | none => historyLoop env key rs (i + 1) wallet1 (history ++ [⟨r.TxId, Wallet.zero⟩])
      | some d =>
        let wallet2 := jsonUnmarshalWallet d wallet1
        historyLoop env key rs (i + 1) wallet2 (history ++ [⟨r.TxId, wallet2⟩])

/-- Model of `json.Marshal` of one `get_History`. -/
def encodeHistoryEntry (h : GetHistory) : List Char :=
  '{' :: (encodeMember "txId" (encodeString h.TxId) ++ ',' ::
    (encodeMember "value" (encodeWallet h.Value) ++ ['}']))

/-- Comma-separated entries of a non-empty slice. -/
def encodeHistoryEntries : List GetHistory → List Char
  | [] => []
  | [h] => encodeHistoryEntry h
  | h :: hs => encodeHistoryEntry h ++ ',' :: encodeHistoryEntries hs

/-- Model of `json.Marshal(history)` for `[]get_History`: a slice that was never appended to is
    `nil` and encodes as `null`. -/
def jsonMarshalHistory (history : List GetHistory) : String :=
  match history with
  | [] => "null"
  | _ => String.mk ('[' :: (encodeHistoryEntries history ++ [']']))

/-- The Go function `get_txList`. -/
def get_txList (env : Env) (l : Ledger) (args : List String) : Response × Ledger :=
  match args with
  | [a0] =>
    match env.historyErr a0 with
    | some e => (Response.error e, l)
    | none =>
      match historyLoop env a0 (historyOf l a0) 0 Wallet.zero [] with
      | Except.error e => (Response.error e, l)
      | Except.ok history => (Response.success (jsonMarshalHistory history), l)
  | _ => (Response.error "Incorrect number of arguments. Expecting 1", l)

/-- The Go method `Init`. -/
def Init (_env : Env) (l : Ledger) : Response × Ledger := (Response.success "", l)

/-- The Go method `Invoke`, on the function name and parameters that
    `stub.GetFunctionAndParameters` returns. -/
def Invoke (env : Env) (l : Ledger) (function : String) (args : List String) :
    Response × Ledger :=
  if function = "init" then Init env l
  else if function = "init_wallet" then init_wallet env l args
  else if function = "publish" then publish env l args
  else if function = "transfer" then transfer env l args
  else if function = "get_account" then get_account env l args
  else if function = "get_txList" then get_txList env l args
  else (Response.error ("Received unknown invoke function name: " ++ function), l)

/-- An environment in which no stub call fails. -/
def Env.quiet (txID : String) : Env :=
  { txID := txID, putFails := fun _ _ => false, historyErr := fun _ => none,
    nextErr := fun _ _ => none }

/-- The wallet stored under a key: the current value of the key decoded into a fresh
    `Wallet`, as `publish`, `transfer` and `get_account` read it; `none` when the key has
    no value. -/
def storedWallet (l : Ledger) (k : String) : Option Wallet :=
  (getState l k).map (fun d => jsonUnmarshalWallet d Wallet.zero)

/-- The sender-side wallet that `transfer` writes. -/
def senderAfter (sender0 : Wallet) (a1 a2 a3 a4 : String) : Wallet :=
  { Balance := (sender0.Balance + 2 ^ 64 - (parseUint a2).1) % 2 ^ 64,
    TxInfo := { Trader := a1, Amount := (parseUint a2).1, Date := a4, TxType := a3 } }

/-- The receiver-side wallet that `transfer` writes. -/
def receiverAfter (receiver0 : Wallet) (a0 a2 a3 a4 : String) : Wallet :=
  { Balance := (receiver0.Balance + (parseUint a2).1) % 2 ^ 64,
    TxInfo := { Trader := a0, Amount := (parseUint a2).1, Date := a4,
                TxType := itoa (wrapInt64 ((atoi a3).1 + 1)) } }

/-- The wallet that `publish` writes for a wallet read as `w0`, with counterparty `trader`. -/
def publishAfter (w0 : Wallet) (trader a2 a3 : String) : Wallet :=
  { Balance := (w0.Balance + (parseUint a2).1) % 2 ^ 64,
    TxInfo := { Trader := trader, Amount := (parseUint a2).1, Date := a3, TxType := "0" } }

/-- An environment in which exactly the `n`-th `PutState` of the invocation fails. -/
def Env.failingAt (txID : String) (n : Nat) : Env :=
  { txID := txID, putFails := fun i _ => decide (i = n), historyErr := fun _ => none,
    nextErr := fun _ _ => none }

/-! ## Sample states -/

/-- A ledger with two funded wallets, `alice` (balance 10) and `bob` (balance 3), as
    `init_wallet` and `publish` leave them. -/
def sampleLedger : Ledger :=
  [⟨"alice", "tx0", some (jsonMarshalWallet ⟨10, ⟨"bank", 10, "d0", "0"⟩⟩)⟩,
   ⟨"bob", "tx0", some (jsonMarshalWallet ⟨3, ⟨"bank", 3, "d0", "0"⟩⟩)⟩]

/-- A ledger in which `bob` holds the largest `uint64` balance. -/
def fullLedger : Ledger :=
  [⟨"alice", "tx0", some (jsonMarshalWallet ⟨10, ⟨"bank", 10, "d0", "0"⟩⟩)⟩,
   ⟨"bob", "tx0",
     some (jsonMarshalWallet ⟨18446744073709551615, ⟨"bank", 18446744073709551615, "d0", "0"⟩⟩)⟩]

/-- The ledger after creating the wallets `issuer` and `acc` with `init_wallet`. -/
def freshLedger : Ledger :=
  (init_wallet (Env.quiet "tx2")
    (init_wallet (Env.quiet "tx1") [] ["issuer", "root", "d0"]).2 ["acc", "root", "d0"]).2

/-! ## Histories and the effect of decoding -/

/-- The wallet a revision value decodes to on its own; the zero wallet for an absent
    value. -/
def decodeAlone (v : Option String) : Wallet :=
  match v with
  | none => Wallet.zero
  | some d => jsonUnmarshalWallet d Wallet.zero

/-- The history in which every revision is decoded on its own. -/
def historyAlone (revs : List Rev) : List GetHistory :=
  revs.map (fun r => ⟨r.TxId, decodeAlone r.Value⟩)

/-- The history in which every present value is decoded into the wallet left by the
    revisions before it, starting from `w`, and an absent value gives the zero wallet. -/
def replayHistory : Wallet → List Rev → List GetHistory
  | _, [] => []
  | w, r :: rs =>
    match r.Value with
    | none => ⟨r.TxId, Wallet.zero⟩ :: replayHistory w rs
    | some d => ⟨r.TxId, jsonUnmarshalWallet d w⟩ :: replayHistory (jsonUnmarshalWallet d w) rs

/-- The fields of a `Transaction` that a decoded JSON value sets. -/
structure TxPatch where
  trader : Option String
  amount : Option Nat
  date : Option String
  txType : Option String

/-- The fields of a `Wallet` that a decoded JSON value sets. -/
structure WalletPatch where
  balance : Option Nat
  tx : TxPatch

/-- Setting the fields of a patch in a transaction. -/
def TxPatch.apply (p : TxPatch) (t : Transaction) : Transaction :=
  ⟨p.trader.getD t.Trader, p.amount.getD t.Amount, p.date.getD t.Date, p.txType.getD t.TxType⟩

/-- The patch that has the effect of `p` followed by `q`. -/
def TxPatch.andThen (p q : TxPatch) : TxPatch :=
  ⟨q.trader.orElse (fun _ => p.trader), q.amount.orElse (fun _ => p.amount),
    q.date.orElse (fun _ => p.date), q.txType.orElse (fun _ => p.txType)⟩

/-- Setting the fields of a patch in a wallet. -/
def WalletPatch.apply (p : WalletPatch) (w : Wallet) : Wallet :=
  ⟨p.balance.getD w.Balance, p.tx.apply w.TxInfo⟩

/-- The patch that has the effect of `p` followed by `q`. -/
def WalletPatch.andThen (p q : WalletPatch) : WalletPatch :=
  ⟨q.balance.orElse (fun _ => p.balance), p.tx.andThen q.tx⟩

/-- A ledger in which the key `k` was written, deleted and written again. -/
def tombstoneLedger : Ledger :=
  [⟨"k", "t1", some (jsonMarshalWallet ⟨7, ⟨"bank", 7, "d0", "0"⟩⟩)⟩,
   ⟨"k", "t2", none⟩,
   ⟨"k", "t3", some (jsonMarshalWallet ⟨9, ⟨"bank", 2, "d1", "0"⟩⟩)⟩]

/-- A ledger in which the second revision of the key `k` holds the JSON text `null`. -/
def staleLedger : Ledger :=
  [⟨"k", "t1", some (jsonMarshalWallet ⟨7, ⟨"bank", 7, "d0", "0"⟩⟩)⟩,
   ⟨"k", "t2", some "null"⟩]

/-! ## Runs of mutating calls -/

/-- A mutating call of the chaincode, `publish` or `transfer`, with the environment it
    runs in and its arguments. -/
inductive Call where
  | publish (env : Env) (a0 a1 a2 a3 : String)
  | transfer (env : Env) (a0 a1 a2 a3 a4 : String)

/-- Running a call on a ledger. -/
def Call.run : Call → Ledger → Response × Ledger
  | Call.publish env a0 a1 a2 a3, l => RcChaincode.publish env l [a0, a1, a2, a3]
  | Call.transfer env a0 a1 a2 a3 a4, l => RcChaincode.transfer env l [a0, a1, a2, a3, a4]

/-- The two wallet keys of a call. -/
def Call.keys : Call → String × String
  | Call.publish _ a0 a1 _ _ => (a0, a1)
  | Call.transfer _ a0 a1 _ _ _ => (a0, a1)

/-- Whether `acc` is one of the two wallets of the call and the two wallets differ. -/
def Call.touchesOnce (acc : String) (c : Call) : Bool :=
  (decide (c.keys.1 = acc) || decide (c.keys.2 = acc)) && !decide (c.keys.1 = c.keys.2)

/-- The ledgers after each of a sequence of calls run one after the other. -/
def runCalls : Ledger → List Call → List Ledger
  | _, [] => []
  | l, c :: cs => (c.run l).2 :: runCalls (c.run l).2 cs

/-- The ledger after a sequence of calls run one after the other. -/
def finalLedger : Ledger → List Call → Ledger
  | l, [] => l
  | l, c :: cs => finalLedger (c.run l).2 cs

/-- Whether every call of the sequence returns success when they are run one after the
    other. -/
def allSucceed : Ledger → List Call → Bool
  | _, [] => true
  | l, c :: cs => !(c.run l).1.isError && allSucceed (c.run l).2 cs

/-- Two calls on `carol`: a mint of 100 issued by `alice`, then a transfer of 30 to `bob`. -/
def sampleCalls : List Call :=
  [Call.publish (Env.quiet "tx2") "carol" "alice" "100" "d1",
   Call.transfer (Env.quiet "tx3") "carol" "bob" "30" "5" "d2"]

/-! ## Facts about `strconv` -/

theorem digitChar_toNat {d : Nat} (h : d < 10) : (digitChar d).toNat = 48 + d := by
  interval_cases d <;> rfl

theorem isDigit_digitChar {d : Nat} (h : d < 10) : isDigit (digitChar d) = true := by
  interval_cases d <;> rfl

theorem decDigits_succ (f n : Nat) :
    decDigits (f + 1) n =
      if n < 10 then [digitChar n] else decDigits f (n / 10) ++ [digitChar (n % 10)] := rfl

theorem decDigits_fuel : ∀ (f g n : Nat), n < f → n < g → decDigits f n = decDigits g n := by
  intro f
  induction f with
  | zero => intro g n h; omega
  | succ f ih =>
    intro g n hf hg
    cases g with
    | zero => omega
    | succ g =>
      rw [decDigits_succ, decDigits_succ]
      by_cases h : n < 10
      · simp [h]
      · simp only [h, if_false]
        rw [ih g (n / 10) (by omega) (by omega)]

theorem formatUintChars_eq (n : Nat) :
    formatUintChars n =
      if n < 10 then [digitChar n] else formatUintChars (n / 10) ++ [digitChar (n % 10)] := by
  unfold formatUintChars
  rw [decDigits_succ]
  by_cases h : n < 10
  · simp [h]
  · simp only [h, if_false]
    rw [decDigits_fuel n (n / 10 + 1) (n / 10) (by omega) (by omega)]

theorem formatUintChars_digits (n : Nat) : ∀ c ∈ formatUintChars n, isDigit c = true := by
  induction n using Nat.strong_induction_on with
  | _ n ih =>
    rw [formatUintChars_eq]
    by_cases h : n < 10
    · simp [h, isDigit_digitChar h]
    · simp only [h, if_false, List.mem_append, List.mem_singleton]
      rintro c (hc | hc)
      · exact ih (n / 10) (by omega) c hc
      · subst hc; exact isDigit_digitChar (by omega)

theorem parseUintLoop_append (xs ys : List Char) : ∀ (a : Nat),
    parseUintLoop (xs ++ ys) a =
      if (parseUintLoop xs a).2 = NumErr.ok then parseUintLoop ys (parseUintLoop xs a).1
      else parseUintLoop xs a := by
  induction xs with
  | nil => intro a; simp [parseUintLoop]
  | cons c cs ih =>
    intro a
    simp only [List.cons_append, parseUintLoop]
    by_cases hd : isDigit c = true
    · simp only [hd, if_true]
      by_cases h1 : a ≥ maxUint64 / 10 + 1
      · simp [h1]
      · simp only [h1, if_false]
        by_cases h2 : a * 10 + (c.toNat - 48) > maxUint64
        · simp [h2]
        · simp only [h2, if_false]
          exact ih _
    · simp [hd]

theorem parseUintLoop_formatUintChars (n : Nat) (h : n < 2 ^ 64) :
    parseUintLoop (formatUintChars n) 0 = (n, NumErr.ok) := by
  induction n using Nat.strong_induction_on with
  | _ n ih =>
    rw [formatUintChars_eq]
    by_cases h10 : n < 10
    · simp only [h10, if_true, parseUintLoop, isDigit_digitChar h10, digitChar_toNat h10]
      simp [maxUint64]
      omega
    · simp only [h10, if_false]
      rw [parseUintLoop_append, ih (n / 10) (by omega) (by omega)]
      have hd : n % 10 < 10 := by omega
      simp only [if_true, parseUintLoop, isDigit_digitChar hd, digitChar_toNat hd]
      have e : n / 10 * 10 + n % 10 = n := by omega
      have h1 : ¬ (maxUint64 / 10 + 1 ≤ n / 10) := by simp only [maxUint64]; omega
      have h2 : ¬ (maxUint64 < n) := by simp only [maxUint64]; omega
      simp [e, h1, h2]

theorem formatUintChars_ne_nil (n : Nat) : formatUintChars n ≠ [] := by
  rw [formatUintChars_eq]
  by_cases h : n < 10 <;> simp [h]

theorem parseUintChars_formatUintChars (n : Nat) (h : n < 2 ^ 64) :
    parseUintChars (formatUintChars n) = (n, NumErr.ok) := by
  unfold parseUintChars
  split
  · next heq => exact absurd heq (formatUintChars_ne_nil n)
  · exact parseUintLoop_formatUintChars n h

theorem parseUintLoop_lt (s : List Char) : ∀ a, a < 2 ^ 64 → (parseUintLoop s a).1 < 2 ^ 64 := by
  induction s with
  | nil => intro a h; simpa [parseUintLoop] using h
  | cons c cs ih =>
    intro a h
    simp only [parseUintLoop]
    split
    · split
      · simp [maxUint64]
      · split
        · simp [maxUint64]
        · apply ih; simp only [maxUint64] at *; omega
    · simp

theorem parseUint_lt (s : String) : (parseUint s).1 < 2 ^ 64 := by
  unfold parseUint parseUintChars
  split
  · simp
  · exact parseUintLoop_lt _ 0 (by norm_num)

/-! ## Facts about the JSON codec -/

theorem char_eq_of_toNat {a b : Char} (h : a.toNat = b.toNat) : a = b := by
  apply Char.ext
  apply UInt32.ext
  exact h

theorem hexVal_hexDigit {d : Nat} (h : d < 16) : hexVal (hexDigit d) = some d := by
  interval_cases d <;> rfl

theorem hex4_low (n : Nat) (h : n < 256) :
    hex4 '0' '0' (hexDigit (n / 16)) (hexDigit (n % 16)) = some n := by
  have h1 : hexVal '0' = some 0 := rfl
  simp only [hex4, h1, hexVal_hexDigit (show n / 16 < 16 by omega),
    hexVal_hexDigit (show n % 16 < 16 by omega)]
  congr 1
  omega

theorem parseStrBody_escapeChar (c : Char) (tail acc : List Char) :
    parseStrBody (escapeChar c ++ tail) none acc = parseStrBody tail none (acc ++ [c]) := by
  unfold escapeChar
  split_ifs with h1 h2 h3 h4 h5 h6 h7 h8
  · subst h1; rw [parseStrBody.eq_def]; simp [flushPending]
  · subst h2; rw [parseStrBody.eq_def]; simp [flushPending]
  · subst h3; rw [parseStrBody.eq_def]; simp [flushPending]
  · subst h4; rw [parseStrBody.eq_def]; simp [flushPending]
  · subst h5; rw [parseStrBody.eq_def]; simp [flushPending]
  · have hlt : c.toNat < 256 := by
      rcases h6 with h | h | h | h
      · omega
      · subst h; decide
      · subst h; decide
      · subst h; decide
    have hns : ¬ (0xD800 ≤ c.toNat ∧ c.toNat < 0xDC00) := by omega
    have hns2 : ¬ (0xDC00 ≤ c.toNat ∧ c.toNat < 0xE000) := by omega
    rw [parseStrBody.eq_def]
    simp [hex4_low c.toNat hlt, flushPending, Char.ofNat_toNat, hns, hns2]
  · have hc : c = Char.ofNat 0x2028 := char_eq_of_toNat (by rw [h7]; rfl)
    subst hc
    have hx : hex4 '2' '0' '2' '8' = some 0x2028 := by decide
    rw [parseStrBody.eq_def]
    simp [flushPending, hx]
  · have hc : c = Char.ofNat 0x2029 := char_eq_of_toNat (by rw [h8]; rfl)
    subst hc
    have hx : hex4 '2' '0' '2' '9' = some 0x2029 := by decide
    rw [parseStrBody.eq_def]
    simp [flushPending, hx]
  · have h32 : ¬ c.toNat < 32 := fun h => h6 (Or.inl h)
    rw [parseStrBody.eq_def]
    simp [h1, h2, h32, flushPending]

theorem parseStrBody_escapeChars (s : List Char) : ∀ (rest acc : List Char),
    parseStrBody (escapeChars s ++ '"' :: rest) none acc = some (acc ++ s, rest) := by
  induction s with
  | nil =>
    intro rest acc
    rw [escapeChars, parseStrBody.eq_def]
    simp [flushPending]
  | cons c cs ih =>
    intro rest acc
    rw [escapeChars, List.append_assoc, parseStrBody_escapeChar, ih]
    simp

/-- Parsing a string literal written by the encoder gives the string back. -/
theorem parseValue_encodeString (fuel : Nat) (s : String) (rest : List Char) :
    parseValue (fuel + 1) (encodeString s ++ rest) = some (JSON.str s.data, rest) := by
  rw [encodeString, List.cons_append, parseValue.eq_3]
  simp [parseStrBody_escapeChars]

theorem takeWhile_dropWhile_isDigit (xs : List Char) (hx : ∀ c ∈ xs, isDigit c = true)
    (c : Char) (hc : isDigit c = false) (rest : List Char) :
    (xs ++ c :: rest).takeWhile isDigit = xs ∧ (xs ++ c :: rest).dropWhile isDigit = c :: rest := by
  induction xs with
  | nil => simp [hc]
  | cons x xs ih =>
    have hx1 : isDigit x = true := hx x (by simp)
    have ih1 := ih (fun c hc => hx c (by simp [hc]))
    simp [hx1, ih1.1, ih1.2]

theorem digitChar_eq_zero {d : Nat} (h : d < 10) (h0 : digitChar d = '0') : d = 0 := by
  have := digitChar_toNat h
  rw [h0] at this
  have h48 : ('0' : Char).toNat = 48 := rfl
  omega

theorem formatUintChars_head (n : Nat) :
    ∃ d ds, formatUintChars n = d :: ds ∧ isDigit d = true ∧ (d = '0' → n = 0) := by
  induction n using Nat.strong_induction_on with
  | _ n ih =>
    rw [formatUintChars_eq]
    by_cases h : n < 10
    · exact ⟨digitChar n, [], by simp [h], isDigit_digitChar h, digitChar_eq_zero h⟩
    · obtain ⟨d, ds, he, hd, hz⟩ := ih (n / 10) (by omega)
      refine ⟨d, ds ++ [digitChar (n % 10)], by simp [h, he], hd, ?_⟩
      intro h0
      have := hz h0
      omega

theorem isDigit_false_of_terminator {c : Char} (h : c = ',' ∨ c = '}') : isDigit c = false := by
  rcases h with h | h <;> subst h <;> rfl

/-- A number written by the encoder and followed by `,` or `}` is read back as its
    literal text. -/
theorem parseNumber_formatUintChars (n : Nat) (c : Char) (hc : c = ',' ∨ c = '}')
    (rest : List Char) :
    parseNumber (formatUintChars n ++ c :: rest) = some (formatUintChars n, c :: rest) := by
  obtain ⟨d, ds, he, hd, hz⟩ := formatUintChars_head n
  have hall := formatUintChars_digits n
  rw [he] at hall ⊢
  have hcd := isDigit_false_of_terminator hc
  have hdm : d ≠ '-' := by intro h; subst h; simp [isDigit] at hd
  have hc1 : c ≠ '.' := by rcases hc with h | h <;> subst h <;> decide
  have hc2 : c ≠ 'e' := by rcases hc with h | h <;> subst h <;> decide
  have hc3 : c ≠ 'E' := by rcases hc with h | h <;> subst h <;> decide
  by_cases h0 : d = '0'
  · have hn := hz h0
    subst hn
    have h1 : formatUintChars 0 = ['0'] := rfl
    rw [h1] at he
    simp only [List.cons.injEq] at he
    obtain ⟨hd0, hds⟩ := he
    subst hd0; subst hds
    simp [parseNumber, parseIntPart, parseFrac, parseExp, hc1, hc2, hc3]
  · have hsp := takeWhile_dropWhile_isDigit ds (fun x hx => hall x (by simp [hx])) c hcd rest
    simp [parseNumber, parseIntPart, parseFrac, parseExp, hc1, hc2, hc3, hdm, h0, hd, hsp.1, hsp.2]

theorem parseValue_formatUintChars (fuel n : Nat) (c : Char) (hc : c = ',' ∨ c = '}')
    (rest : List Char) :
    parseValue (fuel + 1) (formatUintChars n ++ c :: rest) =
      some (JSON.num (formatUintChars n), c :: rest) := by
  have hp := parseNumber_formatUintChars n c hc rest
  obtain ⟨d, ds, he, hd, _⟩ := formatUintChars_head n
  rw [he] at hp ⊢
  have h1 : d ≠ '{' := by intro h; subst h; simp [isDigit] at hd
  have h2 : d ≠ '[' := by intro h; subst h; simp [isDigit] at hd
  have h3 : d ≠ '"' := by intro h; subst h; simp [isDigit] at hd
  have h4 : d ≠ 't' := by intro h; subst h; simp [isDigit] at hd
  have h5 : d ≠ 'f' := by intro h; subst h; simp [isDigit] at hd
  have h6 : d ≠ 'n' := by intro h; subst h; simp [isDigit] at hd
  rw [List.cons_append, parseValue.eq_3]
  rw [List.cons_append] at hp
  simp [h1, h2, h3, h4, h5, h6, parseScalar, hp]

theorem skipWs_cons {c : Char} (h : isWs c = false) (r : List Char) :
    skipWs (c :: r) = c :: r := by
  simp [skipWs, h]

theorem encodeMember_eq (k : String) (vs : List Char) :
    encodeMember k vs = '"' :: (escapeChars k.data ++ '"' :: ':' :: vs) := by
  simp [encodeMember, encodeString]

theorem skipWs_encodeMember (k : String) (vs r : List Char) :
    skipWs (encodeMember k vs ++ r) = encodeMember k vs ++ r := by
  rw [encodeMember_eq, List.cons_append]
  exact skipWs_cons (by decide) _

theorem skipWs_encodeString (s : String) (r : List Char) :
    skipWs (encodeString s ++ r) = encodeString s ++ r := by
  rw [encodeString, List.cons_append]
  exact skipWs_cons (by decide) _

theorem skipWs_formatUintChars (n : Nat) (r : List Char) :
    skipWs (formatUintChars n ++ r) = formatUintChars n ++ r := by
  obtain ⟨d, ds, he, hd, _⟩ := formatUintChars_head n
  rw [he, List.cons_append]
  apply skipWs_cons
  simp only [isDigit, Bool.and_eq_true, decide_eq_true_eq] at hd
  have h1 : d ≠ ' ' := by intro h; subst h; revert hd; decide
  have h2 : d ≠ '\t' := by intro h; subst h; revert hd; decide
  have h3 : d ≠ '\r' := by intro h; subst h; revert hd; decide
  have h4 : d ≠ '\n' := by intro h; subst h; revert hd; decide
  simp [isWs, h1, h2, h3, h4]

/-- One object member followed by a comma and the next member. -/
theorem parseMembers_comma (f : Nat) (k k2 : String) (vs vs2 r : List Char) (v : JSON)
    (acc : List (List Char × JSON))
    (hws : skipWs (vs ++ ',' :: (encodeMember k2 vs2 ++ r)) = vs ++ ',' :: (encodeMember k2 vs2 ++ r))
    (hv : parseValue f (vs ++ ',' :: (encodeMember k2 vs2 ++ r)) =
      some (v, ',' :: (encodeMember k2 vs2 ++ r))) :
    parseMembers (f + 1) (encodeMember k vs ++ ',' :: (encodeMember k2 vs2 ++ r)) acc =
      parseMembers f (encodeMember k2 vs2 ++ r) (acc ++ [(k.data, v)]) := by
  generalize htail : encodeMember k2 vs2 ++ r = tail at hws hv ⊢
  have hw4 : skipWs tail = tail := by rw [← htail]; exact skipWs_encodeMember k2 vs2 r
  have e : encodeMember k vs ++ ',' :: tail =
      '"' :: (escapeChars k.data ++ '"' :: (':' :: (vs ++ ',' :: tail))) := by
    simp [encodeMember, encodeString]
  have hw1 : skipWs (':' :: (vs ++ ',' :: tail)) = ':' :: (vs ++ ',' :: tail) :=
    skipWs_cons (by decide) _
  have hw3 : skipWs (',' :: tail) = ',' :: tail := skipWs_cons (by decide) _
  rw [e, parseMembers.eq_3]
  simp only [if_true, parseStrBody_escapeChars, hw1, hws, hv, hw3, hw4, List.nil_append]

/-- The last object member, followed by the closing brace. -/
theorem parseMembers_close (f : Nat) (k : String) (vs r : List Char) (v : JSON)
    (acc : List (List Char × JSON))
    (hws : skipWs (vs ++ '}' :: r) = vs ++ '}' :: r)
    (hv : parseValue f (vs ++ '}' :: r) = some (v, '}' :: r)) :
    parseMembers (f + 1) (encodeMember k vs ++ '}' :: r) acc =
      some (JSON.obj (acc ++ [(k.data, v)]), r) := by
  have e : encodeMember k vs ++ '}' :: r =
      '"' :: (escapeChars k.data ++ '"' :: (':' :: (vs ++ '}' :: r))) := by
    simp [encodeMember, encodeString]
  have hw1 : skipWs (':' :: (vs ++ '}' :: r)) = ':' :: (vs ++ '}' :: r) :=
    skipWs_cons (by decide) _
  have hw3 : skipWs ('}' :: r) = '}' :: r := skipWs_cons (by decide) _
  have hne : ('}' : Char) ≠ ',' := by decide
  rw [e, parseMembers.eq_3]
  simp only [if_true, parseStrBody_escapeChars, hw1, hws, hv, hw3, List.nil_append, hne, if_false]

/-- Opening brace of a non-empty object. -/
theorem parseValue_object (f : Nat) (k : String) (vs r : List Char) :
    parseValue (f + 1) ('{' :: (encodeMember k vs ++ r)) =
      parseMembers f (encodeMember k vs ++ r) [] := by
  rw [parseValue.eq_3, skipWs_encodeMember, encodeMember_eq]
  simp

theorem parseValue_encodeTransaction (f : Nat) (t : Transaction) (rest : List Char) :
    parseValue (f + 6) (encodeTransaction t ++ rest) = some (transactionTree t, rest) := by
  have e : encodeTransaction t ++ rest =
      '{' :: (encodeMember "trader" (encodeString t.Trader) ++ ',' ::
        (encodeMember "amount" (formatUintChars t.Amount) ++ ',' ::
        (encodeMember "date" (encodeString t.Date) ++ ',' ::
        (encodeMember "txType" (encodeString t.TxType) ++ '}' :: rest)))) := by
    simp [encodeTransaction]
  rw [e, parseValue_object,
    parseMembers_comma (f + 4) _ _ _ _ _ (JSON.str t.Trader.data) _
      (skipWs_encodeString _ _) (parseValue_encodeString _ _ _),
    parseMembers_comma (f + 3) _ _ _ _ _ (JSON.num (formatUintChars t.Amount)) _
      (skipWs_formatUintChars _ _) (parseValue_formatUintChars _ _ _ (Or.inl rfl) _),
    parseMembers_comma (f + 2) _ _ _ _ _ (JSON.str t.Date.data) _
      (skipWs_encodeString _ _) (parseValue_encodeString _ _ _),
    parseMembers_close (f + 1) _ _ _ (JSON.str t.TxType.data) _
      (skipWs_encodeString _ _) (parseValue_encodeString _ _ _)]
  rfl

theorem skipWs_encodeTransaction (t : Transaction) (r : List Char) :
    skipWs (encodeTransaction t ++ r) = encodeTransaction t ++ r := by
  rw [encodeTransaction, List.cons_append]
  exact skipWs_cons (by decide) _

theorem parseValue_encodeWallet (f : Nat) (w : Wallet) (rest : List Char) :
    parseValue (f + 9) (encodeWallet w ++ rest) = some (walletTree w, rest) := by
  have e : encodeWallet w ++ rest =
      '{' :: (encodeMember "balance" (formatUintChars w.Balance) ++ ',' ::
        (encodeMember "TxInfo" (encodeTransaction w.TxInfo) ++ '}' :: rest)) := by
    simp [encodeWallet]
  rw [e, parseValue_object,
    parseMembers_comma (f + 7) _ _ _ _ _ (JSON.num (formatUintChars w.Balance)) _
      (skipWs_formatUintChars _ _) (parseValue_formatUintChars _ _ _ (Or.inl rfl) _),
    parseMembers_close (f + 6) _ _ _ (transactionTree w.TxInfo) _
      (skipWs_encodeTransaction _ _) (parseValue_encodeTransaction _ _ _)]
  rfl

theorem encodeWallet_length (w : Wallet) : 8 ≤ (encodeWallet w).length := by
  simp [encodeWallet, encodeMember, encodeString, encodeTransaction]
  omega

theorem parseJSON_encodeWallet (w : Wallet) : parseJSON (encodeWallet w) = some (walletTree w) := by
  have hlen := encodeWallet_length w
  obtain ⟨f, hf⟩ : ∃ f, (encodeWallet w).length + 1 = f + 9 := ⟨(encodeWallet w).length - 8, by omega⟩
  have hs : skipWs (encodeWallet w) = encodeWallet w := by
    rw [encodeWallet]; exact skipWs_cons (by decide) _
  have hp := parseValue_encodeWallet f w []
  rw [List.append_nil] at hp
  have hn : skipWs ([] : List Char) = [] := rfl
  simp only [parseJSON, hs, hf, hp, hn, if_true]

theorem decodeTransaction_transactionTree (t old : Transaction) (h : t.Amount < 2 ^ 64) :
    decodeTransaction (transactionTree t) old = t := by
  have k1 : keyMatches "trader".data "trader" = true := by decide
  have k2 : keyMatches "amount".data "trader" = false := by decide
  have k3 : keyMatches "amount".data "amount" = true := by decide
  have k4 : keyMatches "date".data "trader" = false := by decide
  have k5 : keyMatches "date".data "amount" = false := by decide
  have k6 : keyMatches "date".data "date" = true := by decide
  have k7 : keyMatches "txType".data "trader" = false := by decide
  have k8 : keyMatches "txType".data "amount" = false := by decide
  have k9 : keyMatches "txType".data "date" = false := by decide
  have k10 : keyMatches "txType".data "txType" = true := by decide
  simp [decodeTransaction, transactionTree, decodeTransactionField, decodeString, decodeUint,
    parseUintChars_formatUintChars t.Amount h, k1, k2, k3, k4, k5, k6, k7, k8, k9, k10]

theorem decodeWallet_walletTree (w old : Wallet) (h : w.wf) :
    decodeWallet (walletTree w) old = w := by
  have k1 : keyMatches "balance".data "balance" = true := by decide
  have k2 : keyMatches "TxInfo".data "balance" = false := by decide
  have k3 : keyMatches "TxInfo".data "TxInfo" = true := by decide
  simp [decodeWallet, walletTree, decodeWalletField, decodeUint,
    parseUintChars_formatUintChars w.Balance h.1, k1, k2, k3,
    decodeTransaction_transactionTree w.TxInfo old.TxInfo h.2]

/-- Round trip of the wallet codec: decoding the encoding of a wallet into any
    destination gives the wallet back. -/
theorem jsonUnmarshalWallet_jsonMarshalWallet (w old : Wallet) (h : w.wf) :
    jsonUnmarshalWallet (jsonMarshalWallet w) old = w := by
  simp [jsonUnmarshalWallet, jsonMarshalWallet, parseJSON_encodeWallet, decodeWallet_walletTree w old h]

theorem parseUintChars_lt (s : List Char) : (parseUintChars s).1 < 2 ^ 64 := by
  unfold parseUintChars
  split
  · simp
  · exact parseUintLoop_lt _ 0 (by norm_num)

theorem decodeUint_lt (v : JSON) (old : Nat) (h : old < 2 ^ 64) : decodeUint v old < 2 ^ 64 := by
  unfold decodeUint
  split
  · split
    · exact parseUintChars_lt _
    · exact h
  · exact h

theorem decodeTransaction_amount_lt (v : JSON) (t : Transaction) (h : t.Amount < 2 ^ 64) :
    (decodeTransaction v t).Amount < 2 ^ 64 := by
  unfold decodeTransaction
  split
  · next kvs =>
    induction kvs generalizing t with
    | nil => simpa using h
    | cons kv kvs ih =>
      rw [List.foldl_cons]
      apply ih
      unfold decodeTransactionField
      split_ifs <;> first | exact h | exact decodeUint_lt _ _ h
  · exact h

theorem decodeWallet_wf (v : JSON) (w : Wallet) (h : w.wf) : (decodeWallet v w).wf := by
  unfold decodeWallet
  split
  · next kvs =>
    induction kvs generalizing w with
    | nil => simpa using h
    | cons kv kvs ih =>
      rw [List.foldl_cons]
      apply ih
      unfold decodeWalletField
      split_ifs
      · exact ⟨decodeUint_lt _ _ h.1, h.2⟩
      · exact ⟨h.1, decodeTransaction_amount_lt _ _ h.2⟩
      · exact h
  · exact h

/-- Decoding keeps both numeric fields within `uint64`. -/
theorem jsonUnmarshalWallet_wf (data : String) (w : Wallet) (h : w.wf) :
    (jsonUnmarshalWallet data w).wf := by
  unfold jsonUnmarshalWallet
  split
  · exact h
  · exact decodeWallet_wf _ _ h

theorem Wallet.zero_wf : Wallet.zero.wf := by decide

/-! ## Facts about the ledger and the write paths -/

theorem getState_append (l : Ledger) (r : Rev) (k : String) :
    getState (l ++ [r]) k = if r.key = k then r.Value else getState l k := by
  simp [getState, List.foldl_append]

theorem historyOf_append_ne (l : Ledger) (r : Rev) (k : String) (h : r.key ≠ k) :
    historyOf (l ++ [r]) k = historyOf l k := by
  simp [historyOf, List.filter_append, h]

theorem storedWallet_eq_some {l : Ledger} {k d : String} (h : getState l k = some d) :
    storedWallet l k = some (jsonUnmarshalWallet d Wallet.zero) := by
  simp [storedWallet, h]

theorem senderAfter_wf (w : Wallet) (a1 a2 a3 a4 : String) : (senderAfter w a1 a2 a3 a4).wf :=
  ⟨Nat.mod_lt _ (by norm_num), parseUint_lt a2⟩

theorem receiverAfter_wf (w : Wallet) (a0 a2 a3 a4 : String) : (receiverAfter w a0 a2 a3 a4).wf :=
  ⟨Nat.mod_lt _ (by norm_num), parseUint_lt a2⟩

theorem publishAfter_wf (w : Wallet) (t a2 a3 : String) : (publishAfter w t a2 a3).wf :=
  ⟨Nat.mod_lt _ (by norm_num), parseUint_lt a2⟩

/-- What a `transfer` that does not return an error has done. -/
theorem transfer_success (env : Env) (l : Ledger) (a0 a1 a2 a3 a4 : String)
    (h : (transfer env l [a0, a1, a2, a3, a4]).1.isError = false) :
    ∃ sBytes rBytes, getState l a0 = some sBytes ∧ getState l a1 = some rBytes ∧
      (parseUint a2).1 ≤ (jsonUnmarshalWallet sBytes Wallet.zero).Balance ∧
      env.putFails 0 a0 = false ∧ env.putFails 1 a1 = false ∧
      transfer env l [a0, a1, a2, a3, a4] =
        (Response.success env.txID,
          l ++ [⟨a0, env.txID,
                  some (jsonMarshalWallet
                    (senderAfter (jsonUnmarshalWallet sBytes Wallet.zero) a1 a2 a3 a4))⟩]
            ++ [⟨a1, env.txID,
                  some (jsonMarshalWallet
                    (receiverAfter (jsonUnmarshalWallet rBytes Wallet.zero) a0 a2 a3 a4))⟩]) := by
  unfold transfer at h ⊢
  cases hs : getState l a0 with
  | none => simp [hs, Response.isError] at h
  | some sBytes =>
    cases hr : getState l a1 with
    | none => simp [hs, hr, Response.isError] at h
    | some rBytes =>
      simp only [hs, hr] at h ⊢
      by_cases hlt : (jsonUnmarshalWallet sBytes Wallet.zero).Balance < (parseUint a2).1
      · simp [hlt, Response.isError] at h
      · simp only [hlt, if_false] at h ⊢
        by_cases p0 : env.putFails 0 a0 = true
        · simp [putState, p0, Response.isError] at h
        · by_cases p1 : env.putFails 1 a1 = true
          · simp [putState, p0, p1, Response.isError] at h
          · refine ⟨sBytes, rBytes, rfl, rfl, by omega, by simpa using p0, by simpa using p1, ?_⟩
            simp [putState, p0, p1, senderAfter, receiverAfter]

/-- What a `publish` that does not return an error has done. -/
theorem publish_success (env : Env) (l : Ledger) (a0 a1 a2 a3 : String)
    (h : (publish env l [a0, a1, a2, a3]).1.isError = false) :
    ∃ aBytes tBytes, getState l a1 = some aBytes ∧ getState l a0 = some tBytes ∧
      env.putFails 0 a1 = false ∧ env.putFails 1 a0 = false ∧
      publish env l [a0, a1, a2, a3] =
        (Response.success "",
          l ++ [⟨a1, env.txID,
                  some (jsonMarshalWallet
                    (publishAfter (jsonUnmarshalWallet aBytes Wallet.zero) a0 a2 a3))⟩]
            ++ [⟨a0, env.txID,
                  some (jsonMarshalWallet
                    (publishAfter (jsonUnmarshalWallet tBytes Wallet.zero) a1 a2 a3))⟩]) := by
  unfold publish at h ⊢
  cases ha : getState l a1 with
  | none => simp [ha, Response.isError] at h
  | some aBytes =>
    cases ht : getState l a0 with
    | none => simp [ha, ht, Response.isError] at h
    | some tBytes =>
      simp only [ha, ht] at h ⊢
      by_cases p0 : env.putFails 0 a1 = true
      · simp [putState, p0, Response.isError] at h
      · by_cases p1 : env.putFails 1 a0 = true
        · simp [putState, p0, p1, Response.isError] at h
        · refine ⟨aBytes, tBytes, rfl, rfl, by simpa using p0, by simpa using p1, ?_⟩
          simp [putState, p0, p1, publishAfter]

/-! ## Transfer: conservation (C1) -/

/-- C1, as stated, fails: a transfer from `alice` to herself succeeds and leaves her stored
    balance at 15, so balance after + amount is 20 and not the balance before, 10; and a
    transfer of 1 into a wallet holding 2^64 - 1 succeeds and leaves the receiver at 0, not
    at balance before + amount. -/
theorem transfer_conservation_counterexample :
    (transfer (Env.quiet "tx1") sampleLedger ["alice", "alice", "5", "1", "d1"]).1
        = Response.success "tx1" ∧
      parseUint "5" = (5, NumErr.ok) ∧
      (storedWallet sampleLedger "alice").map Wallet.Balance = some 10 ∧
      (storedWallet (transfer (Env.quiet "tx1") sampleLedger
          ["alice", "alice", "5", "1", "d1"]).2 "alice").map Wallet.Balance = some 15 ∧
      (transfer (Env.quiet "tx1") fullLedger ["alice", "bob", "1", "1", "d1"]).1
        = Response.success "tx1" ∧
      (storedWallet fullLedger "bob").map Wallet.Balance = some 18446744073709551615 ∧
      (storedWallet (transfer (Env.quiet "tx1") fullLedger
          ["alice", "bob", "1", "1", "d1"]).2 "bob").map Wallet.Balance = some 0 := by
  decide


/-- C1, amended: a transfer between two different keys that does not return an error
    leaves the sender's stored balance with balance after + amount = balance before, and
    the receiver's stored balance at (balance before + amount) mod 2^64. -/
theorem transfer_conservation (env : Env) (l : Ledger) (a0 a1 a2 a3 a4 : String)
    (h : (transfer env l [a0, a1, a2, a3, a4]).1.isError = false) (hne : a0 ≠ a1) :
    ∃ s0 r0 s1 r1 : Wallet,
      storedWallet l a0 = some s0 ∧ storedWallet l a1 = some r0 ∧
      storedWallet (transfer env l [a0, a1, a2, a3, a4]).2 a0 = some s1 ∧
      storedWallet (transfer env l [a0, a1, a2, a3, a4]).2 a1 = some r1 ∧
      s1.Balance + (parseUint a2).1 = s0.Balance ∧
      r1.Balance = (r0.Balance + (parseUint a2).1) % 2 ^ 64 := by
  obtain ⟨sBytes, rBytes, hs, hr, hle, _, _, heq⟩ := transfer_success env l a0 a1 a2 a3 a4 h
  have hlt : (jsonUnmarshalWallet sBytes Wallet.zero).Balance < 2 ^ 64 :=
    (jsonUnmarshalWallet_wf sBytes Wallet.zero Wallet.zero_wf).1
  have hne2 : ¬ a1 = a0 := fun e => hne e.symm
  refine ⟨jsonUnmarshalWallet sBytes Wallet.zero, jsonUnmarshalWallet rBytes Wallet.zero,
    senderAfter (jsonUnmarshalWallet sBytes Wallet.zero) a1 a2 a3 a4,
    receiverAfter (jsonUnmarshalWallet rBytes Wallet.zero) a0 a2 a3 a4,
    storedWallet_eq_some hs, storedWallet_eq_some hr, ?_, ?_, ?_, rfl⟩
  · rw [heq]
    simp only [storedWallet, getState_append, hne2, if_false, if_true, Option.map_some']
    rw [jsonUnmarshalWallet_jsonMarshalWallet _ _ (senderAfter_wf _ _ _ _ _)]
  · rw [heq]
    simp only [storedWallet, getState_append, if_true, Option.map_some']
    rw [jsonUnmarshalWallet_jsonMarshalWallet _ _ (receiverAfter_wf _ _ _ _ _)]
  · simp only [senderAfter]
    omega

/-- C1, amended, at a concrete transfer of 5 from `alice` (10) to `bob` (3). -/
theorem transfer_conservation_witness :
    (transfer (Env.quiet "tx1") sampleLedger ["alice", "bob", "5", "1", "d1"]).1.isError = false ∧
      "alice" ≠ "bob" ∧
      ∃ s0 r0 s1 r1 : Wallet,
        storedWallet sampleLedger "alice" = some s0 ∧ storedWallet sampleLedger "bob" = some r0 ∧
        storedWallet (transfer (Env.quiet "tx1") sampleLedger
          ["alice", "bob", "5", "1", "d1"]).2 "alice" = some s1 ∧
        storedWallet (transfer (Env.quiet "tx1") sampleLedger
          ["alice", "bob", "5", "1", "d1"]).2 "bob" = some r1 ∧
        s1.Balance + (parseUint "5").1 = s0.Balance ∧
        r1.Balance = (r0.Balance + (parseUint "5").1) % 2 ^ 64 :=
  ⟨by decide, by decide,
    transfer_conservation (Env.quiet "tx1") sampleLedger "alice" "bob" "5" "1" "d1"
      (by decide) (by decide)⟩

/-! ## Transfer: insufficient funds (C2) -/

/-- C2: a transfer with five arguments, both wallets present and an amount greater than
    the sender's stored balance returns the insufficient-balance error and leaves the
    ledger as it was. -/
theorem transfer_insufficient_funds (env : Env) (l : Ledger) (a0 a1 a2 a3 a4 : String)
    (s0 r0 : Wallet) (hs : storedWallet l a0 = some s0) (hr : storedWallet l a1 = some r0)
    (hlt : s0.Balance < (parseUint a2).1) :
    transfer env l [a0, a1, a2, a3, a4] =
      (Response.error (a0 ++ " is not enough balance."), l) := by
  unfold storedWallet at hs hr
  cases hgs : getState l a0 with
  | none => simp [hgs] at hs
  | some sBytes =>
    cases hgr : getState l a1 with
    | none => simp [hgr] at hr
    | some rBytes =>
      simp only [hgs, Option.map_some', Option.some.injEq] at hs
      subst hs
      simp [transfer, hgs, hgr, hlt]

/-- C2 at a concrete transfer of 11 out of a balance of 10. -/
theorem transfer_insufficient_funds_witness :
    storedWallet sampleLedger "alice" = some ⟨10, ⟨"bank", 10, "d0", "0"⟩⟩ ∧
      storedWallet sampleLedger "bob" = some ⟨3, ⟨"bank", 3, "d0", "0"⟩⟩ ∧
      10 < (parseUint "11").1 ∧
      transfer (Env.quiet "tx1") sampleLedger ["alice", "bob", "11", "1", "d1"] =
        (Response.error ("alice" ++ " is not enough balance."), sampleLedger) :=
  ⟨by decide, by decide, by decide,
    transfer_insufficient_funds (Env.quiet "tx1") sampleLedger "alice" "bob" "11" "1" "d1"
      ⟨10, ⟨"bank", 10, "d0", "0"⟩⟩ ⟨3, ⟨"bank", 3, "d0", "0"⟩⟩ (by decide) (by decide)
      (by decide)⟩

theorem parseIntChars_ok_range (s : List Char) (t : Int)
    (h : parseIntChars s = (t, NumErr.ok)) : -(2 ^ 63) ≤ t ∧ t < 2 ^ 63 := by
  unfold parseIntChars at h
  cases s with
  | nil => simp at h
  | cons c cs =>
    simp only at h
    generalize parseUintChars (if c = '+' ∨ c = '-' then cs else c :: cs) = r at h
    by_cases hneg : c = '-'
    · simp only [hneg, decide_True, Bool.not_true, Bool.false_and, Bool.true_and, if_true,
        decide_eq_true_eq] at h
      split_ifs at h with h1 h2 h3 h4
      · simp at h
      · simp at h
      · simp at h
      · simp at h
      · simp only [Prod.mk.injEq, and_true] at h
        omega
    · simp only [hneg, decide_False, Bool.not_false, Bool.false_and, Bool.true_and, if_false,
        decide_eq_true_eq] at h
      split_ifs at h with h1 h2 h3 h4
      · simp at h
      · simp at h
      · simp at h
      · simp at h
      · simp only [Prod.mk.injEq, and_true] at h
        omega

theorem wrapInt64_succ (t : Int) (h1 : -(2 ^ 63) ≤ t) (h2 : t < 2 ^ 63) :
    wrapInt64 (t + 1) = if t = 2 ^ 63 - 1 then -(2 ^ 63) else t + 1 := by
  unfold wrapInt64
  split_ifs with h
  · subst h; norm_num
  · have : (t + 1 + 2 ^ 63) % 2 ^ 64 = t + 1 + 2 ^ 63 := Int.emod_eq_of_lt (by omega) (by omega)
    omega


/-! ## Transfer: paired type codes (C3) -/

/-- C3, as stated, fails: after a successful transfer of type "1" from `alice` to herself
    the record stored in the sender's wallet has txType "2", not the supplied "1"; and for
    the type 9223372036854775807, which parses as an integer, the receiver's record has
    txType "-9223372036854775808", not the decimal string of t + 1. -/
theorem transfer_type_codes_counterexample :
    (transfer (Env.quiet "tx1") sampleLedger ["alice", "alice", "5", "1", "d1"]).1
        = Response.success "tx1" ∧
      atoi "1" = (1, NumErr.ok) ∧
      (storedWallet (transfer (Env.quiet "tx1") sampleLedger
          ["alice", "alice", "5", "1", "d1"]).2 "alice").map (fun w => w.TxInfo.TxType)
        = some "2" ∧
      (transfer (Env.quiet "tx1") sampleLedger
          ["alice", "bob", "5", "9223372036854775807", "d1"]).1 = Response.success "tx1" ∧
      atoi "9223372036854775807" = (9223372036854775807, NumErr.ok) ∧
      (storedWallet (transfer (Env.quiet "tx1") sampleLedger
          ["alice", "bob", "5", "9223372036854775807", "d1"]).2 "bob").map
          (fun w => w.TxInfo.TxType) = some "-9223372036854775808" ∧
      itoa (9223372036854775807 + 1) = "9223372036854775808" := by
  decide

/-- C3, amended: after a transfer between two different keys that does not return an
    error and whose type argument parses as the integer `t`, the record stored in the
    sender's wallet has the supplied type argument as txType, and the record stored in the
    receiver's wallet has the decimal string of `t + 1`, or of -2^63 when `t` is 2^63 - 1,
    where the 64-bit addition wraps. -/
theorem transfer_type_codes (env : Env) (l : Ledger) (a0 a1 a2 a3 a4 : String) (t : Int)
    (h : (transfer env l [a0, a1, a2, a3, a4]).1.isError = false) (hne : a0 ≠ a1)
    (ht : atoi a3 = (t, NumErr.ok)) :
    ∃ s1 r1 : Wallet,
      storedWallet (transfer env l [a0, a1, a2, a3, a4]).2 a0 = some s1 ∧
      storedWallet (transfer env l [a0, a1, a2, a3, a4]).2 a1 = some r1 ∧
      s1.TxInfo.TxType = a3 ∧
      r1.TxInfo.TxType = itoa (if t = 2 ^ 63 - 1 then -(2 ^ 63) else t + 1) := by
  obtain ⟨sBytes, rBytes, _, _, _, _, _, heq⟩ := transfer_success env l a0 a1 a2 a3 a4 h
  have hne2 : ¬ a1 = a0 := fun e => hne e.symm
  have hrange := parseIntChars_ok_range a3.data t ht
  refine ⟨senderAfter (jsonUnmarshalWallet sBytes Wallet.zero) a1 a2 a3 a4,
    receiverAfter (jsonUnmarshalWallet rBytes Wallet.zero) a0 a2 a3 a4, ?_, ?_, rfl, ?_⟩
  · rw [heq]
    simp only [storedWallet, getState_append, hne2, if_false, if_true, Option.map_some']
    rw [jsonUnmarshalWallet_jsonMarshalWallet _ _ (senderAfter_wf _ _ _ _ _)]
  · rw [heq]
    simp only [storedWallet, getState_append, if_true, Option.map_some']
    rw [jsonUnmarshalWallet_jsonMarshalWallet _ _ (receiverAfter_wf _ _ _ _ _)]
  · simp only [receiverAfter, ht]
    rw [wrapInt64_succ t hrange.1 hrange.2]

/-- C3, amended, at a concrete transfer of type "1": the receiver's record shows "2". -/
theorem transfer_type_codes_witness :
    (transfer (Env.quiet "tx1") sampleLedger ["alice", "bob", "5", "1", "d1"]).1.isError = false ∧
      "alice" ≠ "bob" ∧ atoi "1" = (1, NumErr.ok) ∧
      ∃ s1 r1 : Wallet,
        storedWallet (transfer (Env.quiet "tx1") sampleLedger
          ["alice", "bob", "5", "1", "d1"]).2 "alice" = some s1 ∧
        storedWallet (transfer (Env.quiet "tx1") sampleLedger
          ["alice", "bob", "5", "1", "d1"]).2 "bob" = some r1 ∧
        s1.TxInfo.TxType = "1" ∧
        r1.TxInfo.TxType = itoa (if (1 : Int) = 2 ^ 63 - 1 then -(2 ^ 63) else 1 + 1) :=
  ⟨by decide, by decide, by decide,
    transfer_type_codes (Env.quiet "tx1") sampleLedger "alice" "bob" "5" "1" "d1" 1
      (by decide) (by decide) (by decide)⟩

/-! ## Arity checks (C4) -/

/-- C4: each of the five functions, called with an argument list of another length than
    it expects, returns an error and leaves the ledger as it was. -/
theorem arity_checked_first (env : Env) (l : Ledger) (args : List String) :
    (args.length ≠ 3 →
      (init_wallet env l args).1.isError = true ∧ (init_wallet env l args).2 = l) ∧
    (args.length ≠ 4 →
      (publish env l args).1.isError = true ∧ (publish env l args).2 = l) ∧
    (args.length ≠ 5 →
      (transfer env l args).1.isError = true ∧ (transfer env l args).2 = l) ∧
    (args.length ≠ 1 →
      (get_account env l args).1.isError = true ∧ (get_account env l args).2 = l) ∧
    (args.length ≠ 1 →
      (get_txList env l args).1.isError = true ∧ (get_txList env l args).2 = l) := by
  refine ⟨?_, ?_, ?_, ?_, ?_⟩
  · intro h
    unfold init_wallet
    split
    · simp at h
    · exact ⟨rfl, rfl⟩
  · intro h
    unfold publish
    split
    · simp at h
    · exact ⟨rfl, rfl⟩
  · intro h
    unfold transfer
    split
    · simp at h
    · exact ⟨rfl, rfl⟩
  · intro h
    unfold get_account
    split
    · simp at h
    · exact ⟨rfl, rfl⟩
  · intro h
    unfold get_txList
    split
    · simp at h
    · exact ⟨rfl, rfl⟩

/-- C4 at a two-element argument list, which is the wrong length for all five functions. -/
theorem arity_checked_first_witness :
    (["alice", "bob"].length ≠ 3 ∧ ["alice", "bob"].length ≠ 4 ∧ ["alice", "bob"].length ≠ 5 ∧
      ["alice", "bob"].length ≠ 1) ∧
    ((init_wallet (Env.quiet "tx1") sampleLedger ["alice", "bob"]).1.isError = true ∧
      (init_wallet (Env.quiet "tx1") sampleLedger ["alice", "bob"]).2 = sampleLedger) ∧
    ((publish (Env.quiet "tx1") sampleLedger ["alice", "bob"]).1.isError = true ∧
      (publish (Env.quiet "tx1") sampleLedger ["alice", "bob"]).2 = sampleLedger) ∧
    ((transfer (Env.quiet "tx1") sampleLedger ["alice", "bob"]).1.isError = true ∧
      (transfer (Env.quiet "tx1") sampleLedger ["alice", "bob"]).2 = sampleLedger) ∧
    ((get_account (Env.quiet "tx1") sampleLedger ["alice", "bob"]).1.isError = true ∧
      (get_account (Env.quiet "tx1") sampleLedger ["alice", "bob"]).2 = sampleLedger) ∧
    ((get_txList (Env.quiet "tx1") sampleLedger ["alice", "bob"]).1.isError = true ∧
      (get_txList (Env.quiet "tx1") sampleLedger ["alice", "bob"]).2 = sampleLedger) :=
  have t := arity_checked_first (Env.quiet "tx1") sampleLedger ["alice", "bob"]
  ⟨⟨by decide, by decide, by decide, by decide⟩, t.1 (by decide), t.2.1 (by decide),
    t.2.2.1 (by decide), t.2.2.2.1 (by decide), t.2.2.2.2 (by decide)⟩

theorem formatUint_zero : formatUint 0 = "0" := by decide

theorem get_account_stored (env : Env) (l : Ledger) (a : String) (w : Wallet)
    (h : storedWallet l a = some w) :
    get_account env l [a] = (Response.success (formatUint w.Balance), l) := by
  unfold storedWallet at h
  cases hg : getState l a with
  | none => simp [hg] at h
  | some d =>
    simp only [hg, Option.map_some', Option.some.injEq] at h
    subst h
    simp [get_account, hg]

/-! ## Mint (C5) -/

/-- C5, as stated, fails: minting 1 into a wallet that holds 2^64 - 1 succeeds and leaves
    its stored balance at 0, which is not the balance before plus the amount, and
    `get_account` then returns "0". -/
theorem publish_credits_counterexample :
    (publish (Env.quiet "tx1") fullLedger ["bob", "alice", "1", "d1"]).1 = Response.success "" ∧
      parseUint "1" = (1, NumErr.ok) ∧
      (storedWallet fullLedger "bob").map Wallet.Balance = some 18446744073709551615 ∧
      (storedWallet (publish (Env.quiet "tx1") fullLedger
          ["bob", "alice", "1", "d1"]).2 "bob").map Wallet.Balance = some 0 ∧
      (get_account (Env.quiet "tx2")
          (publish (Env.quiet "tx1") fullLedger ["bob", "alice", "1", "d1"]).2 ["bob"]).1
        = Response.success "0" := by
  decide

/-- C5, amended: after a `publish` that does not return an error, with `n` the parsed
    amount, the issuer's and the target's stored wallets have balance
    (balance before + n) mod 2^64 and a record with txType "0", amount `n`, the supplied
    date and the other party as trader; a following `get_account` of the target returns the
    decimal string of the target's new balance. -/
theorem publish_credits (env env2 : Env) (l : Ledger) (a0 a1 a2 a3 : String)
    (h : (publish env l [a0, a1, a2, a3]).1.isError = false) :
    ∃ i0 t0 : Wallet,
      storedWallet l a1 = some i0 ∧ storedWallet l a0 = some t0 ∧
      storedWallet (publish env l [a0, a1, a2, a3]).2 a1 =
        some ⟨(i0.Balance + (parseUint a2).1) % 2 ^ 64, ⟨a0, (parseUint a2).1, a3, "0"⟩⟩ ∧
      storedWallet (publish env l [a0, a1, a2, a3]).2 a0 =
        some ⟨(t0.Balance + (parseUint a2).1) % 2 ^ 64, ⟨a1, (parseUint a2).1, a3, "0"⟩⟩ ∧
      get_account env2 (publish env l [a0, a1, a2, a3]).2 [a0] =
        (Response.success (formatUint ((t0.Balance + (parseUint a2).1) % 2 ^ 64)),
          (publish env l [a0, a1, a2, a3]).2) := by
  obtain ⟨aBytes, tBytes, ha, ht, _, _, heq⟩ := publish_success env l a0 a1 a2 a3 h
  have htarget : storedWallet (publish env l [a0, a1, a2, a3]).2 a0 =
      some ⟨((jsonUnmarshalWallet tBytes Wallet.zero).Balance + (parseUint a2).1) % 2 ^ 64,
        ⟨a1, (parseUint a2).1, a3, "0"⟩⟩ := by
    rw [heq]
    simp only [storedWallet, getState_append, if_true, Option.map_some']
    rw [jsonUnmarshalWallet_jsonMarshalWallet _ _ (publishAfter_wf _ _ _ _)]
    rfl
  refine ⟨jsonUnmarshalWallet aBytes Wallet.zero, jsonUnmarshalWallet tBytes Wallet.zero,
    storedWallet_eq_some ha, storedWallet_eq_some ht, ?_, htarget, ?_⟩
  · by_cases he : a0 = a1
    · subst he
      rw [ha] at ht
      simp only [Option.some.injEq] at ht
      subst ht
      exact htarget
    · rw [heq]
      simp only [storedWallet, getState_append, he, if_false, if_true, Option.map_some']
      rw [jsonUnmarshalWallet_jsonMarshalWallet _ _ (publishAfter_wf _ _ _ _)]
      rfl
  · exact get_account_stored env2 _ a0 _ htarget

/-- C5, amended, at the example of the specification: minting 100 into a freshly created
    wallet `acc`, after which `get_account` returns "100". -/
theorem publish_credits_witness :
    (publish (Env.quiet "tx3") freshLedger ["acc", "issuer", "100", "d1"]).1.isError = false ∧
      (get_account (Env.quiet "tx4")
        (publish (Env.quiet "tx3") freshLedger ["acc", "issuer", "100", "d1"]).2 ["acc"]).1
        = Response.success "100" ∧
      ∃ i0 t0 : Wallet,
        storedWallet freshLedger "issuer" = some i0 ∧ storedWallet freshLedger "acc" = some t0 ∧
        storedWallet (publish (Env.quiet "tx3") freshLedger
          ["acc", "issuer", "100", "d1"]).2 "issuer" =
          some ⟨(i0.Balance + (parseUint "100").1) % 2 ^ 64,
            ⟨"acc", (parseUint "100").1, "d1", "0"⟩⟩ ∧
        storedWallet (publish (Env.quiet "tx3") freshLedger
          ["acc", "issuer", "100", "d1"]).2 "acc" =
          some ⟨(t0.Balance + (parseUint "100").1) % 2 ^ 64,
            ⟨"issuer", (parseUint "100").1, "d1", "0"⟩⟩ ∧
        get_account (Env.quiet "tx4")
          (publish (Env.quiet "tx3") freshLedger ["acc", "issuer", "100", "d1"]).2 ["acc"] =
          (Response.success (formatUint ((t0.Balance + (parseUint "100").1) % 2 ^ 64)),
            (publish (Env.quiet "tx3") freshLedger ["acc", "issuer", "100", "d1"]).2) :=
  ⟨by decide, by decide,
    publish_credits (Env.quiet "tx3") (Env.quiet "tx4") freshLedger
      "acc" "issuer" "100" "d1" (by decide)⟩

/-! ## Wallet creation (C6, C7) -/

/-- What `init_wallet` does when its write is accepted. -/
theorem init_wallet_accepted (env : Env) (l : Ledger) (a0 a1 a2 : String)
    (hput : env.putFails 0 a0 = false) :
    init_wallet env l [a0, a1, a2] =
      (Response.success "",
        l ++ [⟨a0, env.txID, some (jsonMarshalWallet ⟨0, ⟨a1, 0, a2, "10"⟩⟩)⟩]) := by
  simp [init_wallet, putState, hput]

theorem storedWallet_append_same (l : Ledger) (k txid : String) (w : Wallet) (h : w.wf) :
    storedWallet (l ++ [⟨k, txid, some (jsonMarshalWallet w)⟩]) k = some w := by
  simp only [storedWallet, getState_append, if_true, Option.map_some']
  rw [jsonUnmarshalWallet_jsonMarshalWallet _ _ h]

/-- C6: `init_wallet` with three arguments whose write is accepted appends one revision
    of `accountId` whose value decodes to the wallet with balance 0 and the record
    (counterparty, 0, date, "10"), whatever the ledger held before, and it changes neither
    the value nor the history of any other key. -/
theorem init_wallet_postcondition (env : Env) (l : Ledger) (a0 a1 a2 : String)
    (hput : env.putFails 0 a0 = false) :
    (init_wallet env l [a0, a1, a2]).1 = Response.success "" ∧
      storedWallet (init_wallet env l [a0, a1, a2]).2 a0 = some ⟨0, ⟨a1, 0, a2, "10"⟩⟩ ∧
      ∀ k, k ≠ a0 →
        getState (init_wallet env l [a0, a1, a2]).2 k = getState l k ∧
        historyOf (init_wallet env l [a0, a1, a2]).2 k = historyOf l k := by
  rw [init_wallet_accepted env l a0 a1 a2 hput]
  refine ⟨rfl, ?_, ?_⟩
  · exact storedWallet_append_same l a0 env.txID _ (by unfold Wallet.wf; simp)
  · intro k hk
    have hk2 : ¬ a0 = k := fun e => hk e.symm
    exact ⟨by simp [getState_append, hk2], historyOf_append_ne _ _ _ hk2⟩

/-- C6 on a ledger where `alice` already holds 10: her wallet is overwritten. -/
theorem init_wallet_postcondition_witness :
    (Env.quiet "tx1").putFails 0 "alice" = false ∧
      storedWallet sampleLedger "alice" = some ⟨10, ⟨"bank", 10, "d0", "0"⟩⟩ ∧
      ((init_wallet (Env.quiet "tx1") sampleLedger ["alice", "carol", "d1"]).1
          = Response.success "" ∧
        storedWallet (init_wallet (Env.quiet "tx1") sampleLedger ["alice", "carol", "d1"]).2
          "alice" = some ⟨0, ⟨"carol", 0, "d1", "10"⟩⟩ ∧
        ∀ k, k ≠ "alice" →
          getState (init_wallet (Env.quiet "tx1") sampleLedger ["alice", "carol", "d1"]).2 k
            = getState sampleLedger k ∧
          historyOf (init_wallet (Env.quiet "tx1") sampleLedger ["alice", "carol", "d1"]).2 k
            = historyOf sampleLedger k) :=
  ⟨by decide, by decide,
    init_wallet_postcondition (Env.quiet "tx1") sampleLedger "alice" "carol" "d1" (by decide)⟩

/-- C7: after an `init_wallet` that does not return an error, `get_account` of the same
    key succeeds with payload "0" and leaves the ledger as it is. -/
theorem create_then_read (env env2 : Env) (l : Ledger) (a0 a1 a2 : String)
    (h : (init_wallet env l [a0, a1, a2]).1.isError = false) :
    get_account env2 (init_wallet env l [a0, a1, a2]).2 [a0] =
      (Response.success "0", (init_wallet env l [a0, a1, a2]).2) := by
  have hput : env.putFails 0 a0 = false := by
    by_contra hc
    simp [init_wallet, putState, hc, Response.isError] at h
  rw [init_wallet_accepted env l a0 a1 a2 hput]
  have hpost := storedWallet_append_same l a0 env.txID ⟨0, ⟨a1, 0, a2, "10"⟩⟩
    (by unfold Wallet.wf; simp)
  rw [get_account_stored env2 _ a0 _ hpost, formatUint_zero]

/-- C7 at a concrete creation on an empty ledger. -/
theorem create_then_read_witness :
    (init_wallet (Env.quiet "tx1") [] ["alice", "carol", "d1"]).1.isError = false ∧
      get_account (Env.quiet "tx2")
        (init_wallet (Env.quiet "tx1") [] ["alice", "carol", "d1"]).2 ["alice"] =
        (Response.success "0", (init_wallet (Env.quiet "tx1") [] ["alice", "carol", "d1"]).2) :=
  ⟨by decide,
    create_then_read (Env.quiet "tx1") (Env.quiet "tx2") [] "alice" "carol" "d1" (by decide)⟩

/-! ## Missing wallets (C8, C9, C10) -/

/-- C8: `publish` with four arguments and `transfer` with five return an error and leave
    the ledger as it was when one of the two keys has no stored value. -/
theorem missing_wallet_rejected (env : Env) (l : Ledger) :
    (∀ a0 a1 a2 a3 : String, getState l a1 = none ∨ getState l a0 = none →
      (publish env l [a0, a1, a2, a3]).1.isError = true ∧
      (publish env l [a0, a1, a2, a3]).2 = l) ∧
    (∀ a0 a1 a2 a3 a4 : String, getState l a0 = none ∨ getState l a1 = none →
      (transfer env l [a0, a1, a2, a3, a4]).1.isError = true ∧
      (transfer env l [a0, a1, a2, a3, a4]).2 = l) := by
  constructor
  · intro a0 a1 a2 a3 h
    cases ha : getState l a1 with
    | none => simp [publish, ha, Response.isError]
    | some aBytes =>
      cases ht : getState l a0 with
      | none => simp [publish, ha, ht, Response.isError]
      | some tBytes => simp [ha, ht] at h
  · intro a0 a1 a2 a3 a4 h
    cases hs : getState l a0 with
    | none => simp [transfer, hs, Response.isError]
    | some sBytes =>
      cases hr : getState l a1 with
      | none => simp [transfer, hs, hr, Response.isError]
      | some rBytes => simp [hs, hr] at h

/-- C8 with the key `carol`, which `sampleLedger` does not hold. -/
theorem missing_wallet_rejected_witness :
    (getState sampleLedger "carol" = none ∨ getState sampleLedger "alice" = none) ∧
      ((publish (Env.quiet "tx1") sampleLedger ["alice", "carol", "5", "d1"]).1.isError = true ∧
        (publish (Env.quiet "tx1") sampleLedger ["alice", "carol", "5", "d1"]).2 = sampleLedger) ∧
      (getState sampleLedger "alice" = none ∨ getState sampleLedger "carol" = none) ∧
      ((transfer (Env.quiet "tx1") sampleLedger
          ["alice", "carol", "5", "1", "d1"]).1.isError = true ∧
        (transfer (Env.quiet "tx1") sampleLedger
          ["alice", "carol", "5", "1", "d1"]).2 = sampleLedger) :=
  have t := missing_wallet_rejected (Env.quiet "tx1") sampleLedger
  ⟨by decide, t.1 "alice" "carol" "5" "d1" (by decide), by decide,
    t.2 "alice" "carol" "5" "1" "d1" (by decide)⟩

/-- C9: `get_account` of a key without a stored value returns an error, and of a key
    whose stored value is a wallet with balance `b` returns the decimal string of `b`; the
    ledger is left as it was. -/
theorem get_account_result (env : Env) (l : Ledger) (a : String) :
    (getState l a = none →
      get_account env l [a] = (Response.error ("Could not locate Wallet '" ++ a ++ "'"), l)) ∧
    (∀ w : Wallet, storedWallet l a = some w →
      get_account env l [a] = (Response.success (formatUint w.Balance), l)) ∧
    (∀ w : Wallet, w.wf → getState l a = some (jsonMarshalWallet w) →
      get_account env l [a] = (Response.success (formatUint w.Balance), l)) := by
  refine ⟨?_, ?_, ?_⟩
  · intro h
    simp [get_account, h]
  · intro w h
    exact get_account_stored env l a w h
  · intro w hwf h
    apply get_account_stored
    rw [storedWallet_eq_some h, jsonUnmarshalWallet_jsonMarshalWallet w _ hwf]

/-- C9 at the absent key `carol` and at `alice`, whose wallet holds 10. -/
theorem get_account_result_witness :
    getState sampleLedger "carol" = none ∧
      get_account (Env.quiet "tx1") sampleLedger ["carol"] =
        (Response.error ("Could not locate Wallet '" ++ "carol" ++ "'"), sampleLedger) ∧
      storedWallet sampleLedger "alice" = some ⟨10, ⟨"bank", 10, "d0", "0"⟩⟩ ∧
      get_account (Env.quiet "tx1") sampleLedger ["alice"] =
        (Response.success (formatUint 10), sampleLedger) ∧
      (⟨10, ⟨"bank", 10, "d0", "0"⟩⟩ : Wallet).wf ∧
      getState sampleLedger "alice" = some (jsonMarshalWallet ⟨10, ⟨"bank", 10, "d0", "0"⟩⟩) ∧
      get_account (Env.quiet "tx1") sampleLedger ["alice"] =
        (Response.success (formatUint (⟨10, ⟨"bank", 10, "d0", "0"⟩⟩ : Wallet).Balance),
          sampleLedger) :=
  have t := get_account_result (Env.quiet "tx1") sampleLedger
  ⟨by decide, (t "carol").1 (by decide), by decide,
    (t "alice").2.1 ⟨10, ⟨"bank", 10, "d0", "0"⟩⟩ (by decide), by decide, by decide,
    (t "alice").2.2 ⟨10, ⟨"bank", 10, "d0", "0"⟩⟩ (by decide) (by decide)⟩

/-- C10, the code at the failing input: `get_txList` of the key `carol`, which was never
    written, returns success with the payload `null` instead of an error. -/
theorem get_txList_unwritten_key :
    historyOf sampleLedger "carol" = [] ∧ getState sampleLedger "carol" = none ∧
      get_txList (Env.quiet "tx1") sampleLedger ["carol"] =
        (Response.success "null", sampleLedger) ∧
      (get_account (Env.quiet "tx1") sampleLedger ["carol"]).1.isError = true := by
  decide

theorem storedWallet_append_ne (l : Ledger) (r : Rev) (k : String) (h : r.key ≠ k) :
    storedWallet (l ++ [r]) k = storedWallet l k := by
  simp [storedWallet, getState_append, h]

theorem getState_append_ne (l : Ledger) (r : Rev) (k : String) (h : r.key ≠ k) :
    getState (l ++ [r]) k = getState l k := by
  simp [getState_append, h]

theorem storedWallet_balance_lt {l : Ledger} {k : String} {w : Wallet}
    (h : storedWallet l k = some w) : w.Balance < 2 ^ 64 := by
  unfold storedWallet at h
  cases hg : getState l k with
  | none => simp [hg] at h
  | some d =>
    simp only [hg, Option.map_some', Option.some.injEq] at h
    subst h
    exact (jsonUnmarshalWallet_wf d Wallet.zero Wallet.zero_wf).1

/-! ## Mint never decreases a balance (C13) -/

/-- C13, as stated, fails: minting 18446744073709551615 succeeds and lowers the stored
    balance of the target `alice` from 10 to 9 and of the issuer `bob` from 3 to 2. -/
theorem publish_monotone_counterexample :
    (publish (Env.quiet "tx1") sampleLedger
        ["alice", "bob", "18446744073709551615", "d1"]).1 = Response.success "" ∧
      parseUint "18446744073709551615" = (18446744073709551615, NumErr.ok) ∧
      (storedWallet sampleLedger "alice").map Wallet.Balance = some 10 ∧
      (storedWallet (publish (Env.quiet "tx1") sampleLedger
          ["alice", "bob", "18446744073709551615", "d1"]).2 "alice").map Wallet.Balance
        = some 9 ∧
      (storedWallet sampleLedger "bob").map Wallet.Balance = some 3 ∧
      (storedWallet (publish (Env.quiet "tx1") sampleLedger
          ["alice", "bob", "18446744073709551615", "d1"]).2 "bob").map Wallet.Balance
        = some 2 := by
  decide

/-- C13, amended: after a `publish` that does not return an error, the stored balance of
    the issuer and of the target is not below its balance before the call unless that
    balance plus the parsed amount reaches 2^64; and after an `init_wallet` that does
    not return an error the stored balance is 0. -/
theorem publish_monotone (env : Env) (l : Ledger) :
    (∀ a0 a1 a2 a3 : String, (publish env l [a0, a1, a2, a3]).1.isError = false →
      ∃ i0 t0 i1 t1 : Wallet,
        storedWallet l a1 = some i0 ∧ storedWallet l a0 = some t0 ∧
        storedWallet (publish env l [a0, a1, a2, a3]).2 a1 = some i1 ∧
        storedWallet (publish env l [a0, a1, a2, a3]).2 a0 = some t1 ∧
        (i0.Balance ≤ i1.Balance ∨ 2 ^ 64 ≤ i0.Balance + (parseUint a2).1) ∧
        (t0.Balance ≤ t1.Balance ∨ 2 ^ 64 ≤ t0.Balance + (parseUint a2).1)) ∧
    (∀ a0 a1 a2 : String, (init_wallet env l [a0, a1, a2]).1.isError = false →
      (storedWallet (init_wallet env l [a0, a1, a2]).2 a0).map Wallet.Balance = some 0) := by
  constructor
  · intro a0 a1 a2 a3 h
    obtain ⟨aBytes, tBytes, ha, ht, _, _, heq⟩ := publish_success env l a0 a1 a2 a3 h
    have htarget : storedWallet (publish env l [a0, a1, a2, a3]).2 a0 =
        some (publishAfter (jsonUnmarshalWallet tBytes Wallet.zero) a1 a2 a3) := by
      rw [heq]
      exact storedWallet_append_same _ _ _ _ (publishAfter_wf _ _ _ _)
    have hissuer : storedWallet (publish env l [a0, a1, a2, a3]).2 a1 =
        some (publishAfter (jsonUnmarshalWallet aBytes Wallet.zero) a0 a2 a3) := by
      by_cases he : a0 = a1
      · subst he
        rw [ha] at ht
        simp only [Option.some.injEq] at ht
        subst ht
        exact htarget
      · rw [heq, storedWallet_append_ne _ _ _ he]
        exact storedWallet_append_same _ _ _ _ (publishAfter_wf _ _ _ _)
    refine ⟨_, _, _, _, storedWallet_eq_some ha, storedWallet_eq_some ht, hissuer, htarget,
      ?_, ?_⟩
    · by_cases hfit : (jsonUnmarshalWallet aBytes Wallet.zero).Balance + (parseUint a2).1 < 2 ^ 64
      · left
        simp only [publishAfter, Nat.mod_eq_of_lt hfit]
        omega
      · right
        omega
    · by_cases hfit : (jsonUnmarshalWallet tBytes Wallet.zero).Balance + (parseUint a2).1 < 2 ^ 64
      · left
        simp only [publishAfter, Nat.mod_eq_of_lt hfit]
        omega
      · right
        omega
  · intro a0 a1 a2 h
    have hput : env.putFails 0 a0 = false := by
      by_contra hc
      simp [init_wallet, putState, hc, Response.isError] at h
    rw [init_wallet_accepted env l a0 a1 a2 hput,
      storedWallet_append_same l a0 env.txID ⟨0, ⟨a1, 0, a2, "10"⟩⟩ (by unfold Wallet.wf; simp)]
    rfl

/-- C13, amended, at a mint of 5 into `alice` (10) from `bob` (3) and at a creation. -/
theorem publish_monotone_witness :
    (publish (Env.quiet "tx1") sampleLedger ["alice", "bob", "5", "d1"]).1.isError = false ∧
      (∃ i0 t0 i1 t1 : Wallet,
        storedWallet sampleLedger "bob" = some i0 ∧ storedWallet sampleLedger "alice" = some t0 ∧
        storedWallet (publish (Env.quiet "tx1") sampleLedger
          ["alice", "bob", "5", "d1"]).2 "bob" = some i1 ∧
        storedWallet (publish (Env.quiet "tx1") sampleLedger
          ["alice", "bob", "5", "d1"]).2 "alice" = some t1 ∧
        (i0.Balance ≤ i1.Balance ∨ 2 ^ 64 ≤ i0.Balance + (parseUint "5").1) ∧
        (t0.Balance ≤ t1.Balance ∨ 2 ^ 64 ≤ t0.Balance + (parseUint "5").1)) ∧
      (init_wallet (Env.quiet "tx1") sampleLedger ["alice", "carol", "d1"]).1.isError = false ∧
      (storedWallet (init_wallet (Env.quiet "tx1") sampleLedger
          ["alice", "carol", "d1"]).2 "alice").map Wallet.Balance = some 0 :=
  have t := publish_monotone (Env.quiet "tx1") sampleLedger
  ⟨by decide, t.1 "alice" "bob" "5" "d1" (by decide), by decide,
    t.2 "alice" "carol" "d1" (by decide)⟩


/-! ## Transfer: partial failure, receipt, totals, self-transfer (C14, C15, C18, C19) -/

/-- What `transfer` does once both wallets are read and the balance suffices, depending
    on which writes the store accepts. -/
theorem transfer_writes (env : Env) (l : Ledger) (a0 a1 a2 a3 a4 sBytes rBytes : String)
    (hs : getState l a0 = some sBytes) (hr : getState l a1 = some rBytes)
    (hle : (parseUint a2).1 ≤ (jsonUnmarshalWallet sBytes Wallet.zero).Balance) :
    transfer env l [a0, a1, a2, a3, a4] =
      if env.putFails 0 a0 then (Response.error "Currency transfer failed : ", l)
      else if env.putFails 1 a1 then
        (Response.error "Currency receipt failed.: ",
          l ++ [⟨a0, env.txID,
                  some (jsonMarshalWallet
                    (senderAfter (jsonUnmarshalWallet sBytes Wallet.zero) a1 a2 a3 a4))⟩])
      else
        (Response.success env.txID,
          l ++ [⟨a0, env.txID,
                  some (jsonMarshalWallet
                    (senderAfter (jsonUnmarshalWallet sBytes Wallet.zero) a1 a2 a3 a4))⟩]
            ++ [⟨a1, env.txID,
                  some (jsonMarshalWallet
                    (receiverAfter (jsonUnmarshalWallet rBytes Wallet.zero) a0 a2 a3 a4))⟩]) := by
  have hlt : ¬ (jsonUnmarshalWallet sBytes Wallet.zero).Balance < (parseUint a2).1 := by omega
  by_cases p0 : env.putFails 0 a0 = true
  · simp [transfer, hs, hr, hlt, putState, p0]
  · by_cases p1 : env.putFails 1 a1 = true
    · simp [transfer, hs, hr, hlt, putState, p0, p1, senderAfter]
    · simp [transfer, hs, hr, hlt, putState, p0, p1, senderAfter, receiverAfter]

theorem transfer_sender_rejected (env : Env) (l : Ledger) (a0 a1 a2 a3 a4 : String)
    (hp : env.putFails 0 a0 = true) :
    (transfer env l [a0, a1, a2, a3, a4]).1.isError = true ∧
      (transfer env l [a0, a1, a2, a3, a4]).2 = l := by
  cases hs : getState l a0 with
  | none => simp [transfer, hs, Response.isError]
  | some sBytes =>
    cases hr : getState l a1 with
    | none => simp [transfer, hs, hr, Response.isError]
    | some rBytes =>
      by_cases hlt : (jsonUnmarshalWallet sBytes Wallet.zero).Balance < (parseUint a2).1
      · simp [transfer, hs, hr, hlt, Response.isError]
      · rw [transfer_writes env l a0 a1 a2 a3 a4 sBytes rBytes hs hr (by omega)]
        simp [hp, Response.isError]

/-- C14: in a transfer between two different existing wallets with a sufficient sender
    balance, when the store accepts the sender write and rejects the receiver write the
    call returns an error, the sender's stored balance is debited by the amount and the
    receiver's stored value is the one from before the call; when the store rejects the
    sender write the call returns an error and the ledger is left as it was, so the
    receiver write did not take place. -/
theorem transfer_partial_failure (env : Env) (l : Ledger) (a0 a1 a2 a3 a4 : String) :
    (∀ s0 r0 : Wallet, a0 ≠ a1 → storedWallet l a0 = some s0 → storedWallet l a1 = some r0 →
      (parseUint a2).1 ≤ s0.Balance → env.putFails 0 a0 = false → env.putFails 1 a1 = true →
      (transfer env l [a0, a1, a2, a3, a4]).1.isError = true ∧
      (∃ s1 : Wallet, storedWallet (transfer env l [a0, a1, a2, a3, a4]).2 a0 = some s1 ∧
        s1.Balance + (parseUint a2).1 = s0.Balance) ∧
      getState (transfer env l [a0, a1, a2, a3, a4]).2 a1 = getState l a1 ∧
      storedWallet (transfer env l [a0, a1, a2, a3, a4]).2 a1 = some r0) ∧
    (env.putFails 0 a0 = true →
      (transfer env l [a0, a1, a2, a3, a4]).1.isError = true ∧
      (transfer env l [a0, a1, a2, a3, a4]).2 = l) := by
  refine ⟨?_, transfer_sender_rejected env l a0 a1 a2 a3 a4⟩
  intro s0 r0 hne hs hr hle p0 p1
  have hs0 := storedWallet_balance_lt hs
  unfold storedWallet at hs hr
  cases hgs : getState l a0 with
  | none => simp [hgs] at hs
  | some sBytes =>
    cases hgr : getState l a1 with
    | none => simp [hgr] at hr
    | some rBytes =>
      simp only [hgs, Option.map_some', Option.some.injEq] at hs
      simp only [hgr, Option.map_some', Option.some.injEq] at hr
      subst hs
      rw [transfer_writes env l a0 a1 a2 a3 a4 sBytes rBytes hgs hgr hle]
      simp only [p0, p1, if_true, Bool.false_eq_true, if_false]
      refine ⟨rfl, ⟨_, storedWallet_append_same _ _ _ _ (senderAfter_wf _ _ _ _ _), ?_⟩, ?_, ?_⟩
      · simp only [senderAfter]
        omega
      · rw [getState_append_ne _ _ _ hne]
        exact hgr
      · rw [storedWallet_append_ne _ _ _ hne, storedWallet_eq_some hgr, hr]

/-- C14 at a transfer of 5 from `alice` (10) to `bob` (3): once with the receiver write
    rejected, once with the sender write rejected. -/
theorem transfer_partial_failure_witness :
    ("alice" ≠ "bob" ∧
      storedWallet sampleLedger "alice" = some ⟨10, ⟨"bank", 10, "d0", "0"⟩⟩ ∧
      storedWallet sampleLedger "bob" = some ⟨3, ⟨"bank", 3, "d0", "0"⟩⟩ ∧
      (parseUint "5").1 ≤ 10 ∧
      (Env.failingAt "tx1" 1).putFails 0 "alice" = false ∧
      (Env.failingAt "tx1" 1).putFails 1 "bob" = true) ∧
    ((transfer (Env.failingAt "tx1" 1) sampleLedger
        ["alice", "bob", "5", "1", "d1"]).1.isError = true ∧
      (∃ s1 : Wallet,
        storedWallet (transfer (Env.failingAt "tx1" 1) sampleLedger
          ["alice", "bob", "5", "1", "d1"]).2 "alice" = some s1 ∧
        s1.Balance + (parseUint "5").1 = 10) ∧
      getState (transfer (Env.failingAt "tx1" 1) sampleLedger
        ["alice", "bob", "5", "1", "d1"]).2 "bob" = getState sampleLedger "bob" ∧
      storedWallet (transfer (Env.failingAt "tx1" 1) sampleLedger
        ["alice", "bob", "5", "1", "d1"]).2 "bob" = some ⟨3, ⟨"bank", 3, "d0", "0"⟩⟩) ∧
    (Env.failingAt "tx1" 0).putFails 0 "alice" = true ∧
    ((transfer (Env.failingAt "tx1" 0) sampleLedger
        ["alice", "bob", "5", "1", "d1"]).1.isError = true ∧
      (transfer (Env.failingAt "tx1" 0) sampleLedger
        ["alice", "bob", "5", "1", "d1"]).2 = sampleLedger) :=
  ⟨⟨by decide, by decide, by decide, by decide, by decide, by decide⟩,
    (transfer_partial_failure (Env.failingAt "tx1" 1) sampleLedger "alice" "bob" "5" "1" "d1").1
      ⟨10, ⟨"bank", 10, "d0", "0"⟩⟩ ⟨3, ⟨"bank", 3, "d0", "0"⟩⟩
      (by decide) (by decide) (by decide) (by decide) (by decide) (by decide),
    by decide,
    (transfer_partial_failure (Env.failingAt "tx1" 0) sampleLedger "alice" "bob" "5" "1" "d1").2
      (by decide)⟩

/-- C15: the payload of a `transfer` that does not return an error is the transaction
    identifier of the invocation, and the payload of an `init_wallet` or `publish` that
    does not return an error is empty. -/
theorem success_payloads (env : Env) (l : Ledger) :
    (∀ a0 a1 a2 a3 a4 : String, (transfer env l [a0, a1, a2, a3, a4]).1.isError = false →
      (transfer env l [a0, a1, a2, a3, a4]).1 = Response.success env.txID) ∧
    (∀ a0 a1 a2 : String, (init_wallet env l [a0, a1, a2]).1.isError = false →
      (init_wallet env l [a0, a1, a2]).1 = Response.success "") ∧
    (∀ a0 a1 a2 a3 : String, (publish env l [a0, a1, a2, a3]).1.isError = false →
      (publish env l [a0, a1, a2, a3]).1 = Response.success "") := by
  refine ⟨?_, ?_, ?_⟩
  · intro a0 a1 a2 a3 a4 h
    obtain ⟨_, _, _, _, _, _, _, heq⟩ := transfer_success env l a0 a1 a2 a3 a4 h
    rw [heq]
  · intro a0 a1 a2 h
    have hput : env.putFails 0 a0 = false := by
      by_contra hc
      simp [init_wallet, putState, hc, Response.isError] at h
    rw [init_wallet_accepted env l a0 a1 a2 hput]
  · intro a0 a1 a2 a3 h
    obtain ⟨_, _, _, _, _, _, heq⟩ := publish_success env l a0 a1 a2 a3 h
    rw [heq]

/-- C15 at one successful call of each kind. -/
theorem success_payloads_witness :
    (transfer (Env.quiet "tx1") sampleLedger ["alice", "bob", "5", "1", "d1"]).1.isError = false ∧
      (transfer (Env.quiet "tx1") sampleLedger ["alice", "bob", "5", "1", "d1"]).1
        = Response.success (Env.quiet "tx1").txID ∧
      (init_wallet (Env.quiet "tx1") sampleLedger ["carol", "bob", "d1"]).1.isError = false ∧
      (init_wallet (Env.quiet "tx1") sampleLedger ["carol", "bob", "d1"]).1
        = Response.success "" ∧
      (publish (Env.quiet "tx1") sampleLedger ["alice", "bob", "5", "d1"]).1.isError = false ∧
      (publish (Env.quiet "tx1") sampleLedger ["alice", "bob", "5", "d1"]).1
        = Response.success "" :=
  have t := success_payloads (Env.quiet "tx1") sampleLedger
  ⟨by decide, t.1 "alice" "bob" "5" "1" "d1" (by decide), by decide,
    t.2.1 "carol" "bob" "d1" (by decide), by decide, t.2.2 "alice" "bob" "5" "d1" (by decide)⟩

/-! ## Reads (C16) -/

/-- C16: `get_account` and `get_txList` return the ledger they were given, for every
    ledger, environment and argument list, whether they succeed or fail. -/
theorem reads_never_mutate (env : Env) (l : Ledger) (args : List String) :
    (get_account env l args).2 = l ∧ (get_txList env l args).2 = l := by
  constructor
  · unfold get_account
    split
    · split <;> rfl
    · rfl
  · unfold get_txList
    split
    · split
      · rfl
      · split <;> rfl
    · rfl

theorem historyOf_append_ne2 (l : Ledger) (r1 r2 : Rev) (k : String) (h1 : r1.key ≠ k)
    (h2 : r2.key ≠ k) : historyOf (l ++ [r1] ++ [r2]) k = historyOf l k := by
  rw [historyOf_append_ne _ _ _ h2, historyOf_append_ne _ _ _ h1]

/-- C18: after a transfer between two different keys that does not return an error and
    whose credit does not reach 2^64, the two stored balances add up to what they added up
    to before the call, and the value and history of every other key are as before. -/
theorem transfer_total_conserved (env : Env) (l : Ledger) (a0 a1 a2 a3 a4 : String)
    (s0 r0 : Wallet) (h : (transfer env l [a0, a1, a2, a3, a4]).1.isError = false)
    (hne : a0 ≠ a1) (hs : storedWallet l a0 = some s0) (hr : storedWallet l a1 = some r0)
    (hfit : r0.Balance + (parseUint a2).1 < 2 ^ 64) :
    (∃ s1 r1 : Wallet,
      storedWallet (transfer env l [a0, a1, a2, a3, a4]).2 a0 = some s1 ∧
      storedWallet (transfer env l [a0, a1, a2, a3, a4]).2 a1 = some r1 ∧
      s1.Balance + r1.Balance = s0.Balance + r0.Balance) ∧
    ∀ k, k ≠ a0 → k ≠ a1 →
      getState (transfer env l [a0, a1, a2, a3, a4]).2 k = getState l k ∧
      historyOf (transfer env l [a0, a1, a2, a3, a4]).2 k = historyOf l k := by
  obtain ⟨sBytes, rBytes, hgs, hgr, hle, _, _, heq⟩ := transfer_success env l a0 a1 a2 a3 a4 h
  have hs0 := storedWallet_balance_lt hs
  rw [storedWallet_eq_some hgs, Option.some.injEq] at hs
  rw [storedWallet_eq_some hgr, Option.some.injEq] at hr
  subst hs; subst hr
  rw [heq]
  have hne2 : a1 ≠ a0 := fun e => hne e.symm
  refine ⟨⟨senderAfter (jsonUnmarshalWallet sBytes Wallet.zero) a1 a2 a3 a4,
    receiverAfter (jsonUnmarshalWallet rBytes Wallet.zero) a0 a2 a3 a4, ?_,
    storedWallet_append_same _ _ _ _ (receiverAfter_wf _ _ _ _ _), ?_⟩, ?_⟩
  · rw [storedWallet_append_ne _ _ _ hne2]
    exact storedWallet_append_same _ _ _ _ (senderAfter_wf _ _ _ _ _)
  · simp only [senderAfter, receiverAfter, Nat.mod_eq_of_lt hfit]
    omega
  · intro k hk0 hk1
    have e0 : a0 ≠ k := fun e => hk0 e.symm
    have e1 : a1 ≠ k := fun e => hk1 e.symm
    exact ⟨by rw [getState_append_ne _ _ _ e1, getState_append_ne _ _ _ e0],
      historyOf_append_ne2 _ _ _ _ e0 e1⟩

/-- C18 at a transfer of 5 from `alice` (10) to `bob` (3): the total stays 13. -/
theorem transfer_total_conserved_witness :
    ((transfer (Env.quiet "tx1") sampleLedger ["alice", "bob", "5", "1", "d1"]).1.isError = false ∧
      "alice" ≠ "bob" ∧
      storedWallet sampleLedger "alice" = some ⟨10, ⟨"bank", 10, "d0", "0"⟩⟩ ∧
      storedWallet sampleLedger "bob" = some ⟨3, ⟨"bank", 3, "d0", "0"⟩⟩ ∧
      3 + (parseUint "5").1 < 2 ^ 64) ∧
    (∃ s1 r1 : Wallet,
      storedWallet (transfer (Env.quiet "tx1") sampleLedger
        ["alice", "bob", "5", "1", "d1"]).2 "alice" = some s1 ∧
      storedWallet (transfer (Env.quiet "tx1") sampleLedger
        ["alice", "bob", "5", "1", "d1"]).2 "bob" = some r1 ∧
      s1.Balance + r1.Balance = 10 + 3) ∧
    ∀ k, k ≠ "alice" → k ≠ "bob" →
      getState (transfer (Env.quiet "tx1") sampleLedger
        ["alice", "bob", "5", "1", "d1"]).2 k = getState sampleLedger k ∧
      historyOf (transfer (Env.quiet "tx1") sampleLedger
        ["alice", "bob", "5", "1", "d1"]).2 k = historyOf sampleLedger k :=
  ⟨⟨by decide, by decide, by decide, by decide, by decide⟩,
    transfer_total_conserved (Env.quiet "tx1") sampleLedger "alice" "bob" "5" "1" "d1"
      ⟨10, ⟨"bank", 10, "d0", "0"⟩⟩ ⟨3, ⟨"bank", 3, "d0", "0"⟩⟩
      (by decide) (by decide) (by decide) (by decide) (by decide)⟩

theorem parseIntChars_range (s : List Char) :
    -(2 ^ 63) ≤ (parseIntChars s).1 ∧ (parseIntChars s).1 < 2 ^ 63 := by
  unfold parseIntChars
  cases s with
  | nil => simp
  | cons c cs =>
    simp only
    generalize parseUintChars (if c = '+' ∨ c = '-' then cs else c :: cs) = r
    by_cases hneg : c = '-'
    · simp only [hneg, decide_True, Bool.not_true, Bool.false_and, Bool.true_and, if_true,
        decide_eq_true_eq]
      split_ifs <;> simp only [] <;> omega
    · simp only [hneg, decide_False, Bool.not_false, Bool.false_and, Bool.true_and, if_false,
        decide_eq_true_eq]
      split_ifs <;> simp only [] <;> omega

/-- C19: after a transfer from a key to itself that does not return an error, the key
    holds the receiver-side copy: its balance is the balance before plus the amount,
    modulo 2^64, and its record has the key itself as trader, the amount, the date and the
    receiver type code, the decimal string of the supplied type plus one in 64-bit `int`
    arithmetic (the plain sum unless the type is 2^63 - 1). -/
theorem self_transfer_mints (env : Env) (l : Ledger) (a a2 a3 a4 : String) (w : Wallet)
    (h : (transfer env l [a, a, a2, a3, a4]).1.isError = false)
    (hw : storedWallet l a = some w) :
    (parseUint a2).1 ≤ w.Balance ∧
    storedWallet (transfer env l [a, a, a2, a3, a4]).2 a =
      some ⟨(w.Balance + (parseUint a2).1) % 2 ^ 64,
        ⟨a, (parseUint a2).1, a4, itoa (wrapInt64 ((atoi a3).1 + 1))⟩⟩ ∧
    (wrapInt64 ((atoi a3).1 + 1) = (atoi a3).1 + 1 ∨ (atoi a3).1 = 2 ^ 63 - 1) := by
  obtain ⟨sBytes, rBytes, hgs, hgr, hle, _, _, heq⟩ := transfer_success env l a a a2 a3 a4 h
  rw [hgs, Option.some.injEq] at hgr
  subst hgr
  rw [storedWallet_eq_some hgs, Option.some.injEq] at hw
  subst hw
  refine ⟨hle, ?_, ?_⟩
  · rw [heq]
    exact storedWallet_append_same _ _ _ _ (receiverAfter_wf _ _ _ _ _)
  · have hrange : -(2 ^ 63) ≤ (atoi a3).1 ∧ (atoi a3).1 < 2 ^ 63 := parseIntChars_range a3.data
    by_cases hmax : (atoi a3).1 = 2 ^ 63 - 1
    · exact Or.inr hmax
    · left
      rw [wrapInt64_succ _ hrange.1 hrange.2]
      exact if_neg hmax

/-- C19 at a transfer of 5 from `alice` (10) to herself: she ends with 15 and type "2". -/
theorem self_transfer_mints_witness :
    ((transfer (Env.quiet "tx1") sampleLedger ["alice", "alice", "5", "1", "d1"]).1.isError
        = false ∧
      storedWallet sampleLedger "alice" = some ⟨10, ⟨"bank", 10, "d0", "0"⟩⟩) ∧
    ((parseUint "5").1 ≤ 10 ∧
      storedWallet (transfer (Env.quiet "tx1") sampleLedger
        ["alice", "alice", "5", "1", "d1"]).2 "alice" =
        some ⟨(10 + (parseUint "5").1) % 2 ^ 64,
          ⟨"alice", (parseUint "5").1, "d1", itoa (wrapInt64 ((atoi "1").1 + 1))⟩⟩ ∧
      (wrapInt64 ((atoi "1").1 + 1) = (atoi "1").1 + 1 ∨ (atoi "1").1 = 2 ^ 63 - 1)) ∧
    storedWallet (transfer (Env.quiet "tx1") sampleLedger
        ["alice", "alice", "5", "1", "d1"]).2 "alice" = some ⟨15, ⟨"alice", 5, "d1", "2"⟩⟩ :=
  ⟨⟨by decide, by decide⟩,
    self_transfer_mints (Env.quiet "tx1") sampleLedger "alice" "5" "1" "d1"
      ⟨10, ⟨"bank", 10, "d0", "0"⟩⟩ (by decide) (by decide),
    by decide⟩

theorem parseUintLoop_syntaxErr (s : List Char) : ∀ a : Nat,
    (parseUintLoop s a).2 = NumErr.syntaxErr → (parseUintLoop s a).1 = 0 := by
  induction s with
  | nil => intro a h; simp [parseUintLoop] at h
  | cons c cs ih =>
    intro a h
    simp only [parseUintLoop] at h ⊢
    by_cases h1 : isDigit c = true
    · simp only [h1, if_true] at h ⊢
      by_cases h2 : a ≥ maxUint64 / 10 + 1
      · simp [h2] at h
      · simp only [h2, if_false] at h ⊢
        by_cases h3 : a * 10 + (c.toNat - 48) > maxUint64
        · simp [h3] at h
        · simp only [h3, if_false] at h ⊢
          exact ih _ h
    · simp [h1]

theorem parseUint_syntaxErr (s : String) (h : (parseUint s).2 = NumErr.syntaxErr) :
    (parseUint s).1 = 0 := by
  unfold parseUint parseUintChars at h ⊢
  cases hd : s.data with
  | nil => rfl
  | cons c cs =>
    rw [hd] at h
    exact parseUintLoop_syntaxErr _ 0 h

/-! ## Unparsable amounts (C20) -/

/-- C20, as stated, fails: the amount "99999999999999999999x" is not an unsigned decimal
    integer, yet `strconv.ParseUint` meets the overflow before the `x` and returns
    2^64 - 1 with a range error; `publish` succeeds, records that amount and lowers the
    stored balance of `alice` from 10 to 9. -/
theorem publish_unparsable_counterexample :
    "99999999999999999999x".data.all isDigit = false ∧
      parseUint "99999999999999999999x" = (18446744073709551615, NumErr.rangeErr) ∧
      (publish (Env.quiet "tx1") sampleLedger
        ["alice", "bob", "99999999999999999999x", "d1"]).1 = Response.success "" ∧
      storedWallet sampleLedger "alice" = some ⟨10, ⟨"bank", 10, "d0", "0"⟩⟩ ∧
      storedWallet (publish (Env.quiet "tx1") sampleLedger
        ["alice", "bob", "99999999999999999999x", "d1"]).2 "alice" =
        some ⟨9, ⟨"bob", 18446744073709551615, "d1", "0"⟩⟩ := by
  decide

/-- C20, amended: a `publish` with four arguments, both wallets present and both writes
    accepted, whose amount `strconv.ParseUint` rejects with a syntax error, returns success;
    both stored balances are the ones from before the call and both records are
    overwritten with amount 0, txType "0" and the supplied date. -/
theorem publish_unparsable (env : Env) (l : Ledger) (a0 a1 a2 a3 : String) (i0 t0 : Wallet)
    (hi : storedWallet l a1 = some i0) (ht : storedWallet l a0 = some t0)
    (p0 : env.putFails 0 a1 = false) (p1 : env.putFails 1 a0 = false)
    (hsyn : (parseUint a2).2 = NumErr.syntaxErr) :
    (publish env l [a0, a1, a2, a3]).1 = Response.success "" ∧
      storedWallet (publish env l [a0, a1, a2, a3]).2 a1 = some ⟨i0.Balance, ⟨a0, 0, a3, "0"⟩⟩ ∧
      storedWallet (publish env l [a0, a1, a2, a3]).2 a0 = some ⟨t0.Balance, ⟨a1, 0, a3, "0"⟩⟩ := by
  have hzero := parseUint_syntaxErr a2 hsyn
  have hi0 := storedWallet_balance_lt hi
  have ht0 := storedWallet_balance_lt ht
  unfold storedWallet at hi ht
  cases hga : getState l a1 with
  | none => simp [hga] at hi
  | some aBytes =>
    cases hgt : getState l a0 with
    | none => simp [hgt] at ht
    | some tBytes =>
      simp only [hga, Option.map_some', Option.some.injEq] at hi
      simp only [hgt, Option.map_some', Option.some.injEq] at ht
      have heq : publish env l [a0, a1, a2, a3] =
          (Response.success "",
            l ++ [⟨a1, env.txID, some (jsonMarshalWallet ⟨i0.Balance, ⟨a0, 0, a3, "0"⟩⟩)⟩]
              ++ [⟨a0, env.txID, some (jsonMarshalWallet ⟨t0.Balance, ⟨a1, 0, a3, "0"⟩⟩)⟩]) := by
        have e1 : i0.Balance % 18446744073709551616 = i0.Balance := Nat.mod_eq_of_lt hi0
        have e2 : t0.Balance % 18446744073709551616 = t0.Balance := Nat.mod_eq_of_lt ht0
        simp [publish, hga, hgt, putState, p0, p1, hzero, hi, ht, e1, e2]
      rw [heq]
      have hwf1 : (⟨i0.Balance, ⟨a0, 0, a3, "0"⟩⟩ : Wallet).wf := ⟨hi0, by norm_num⟩
      have hwf2 : (⟨t0.Balance, ⟨a1, 0, a3, "0"⟩⟩ : Wallet).wf := ⟨ht0, by norm_num⟩
      refine ⟨rfl, ?_, storedWallet_append_same _ _ _ _ hwf2⟩
      by_cases he : a0 = a1
      · subst he
        rw [hga, Option.some.injEq] at hgt
        subst hgt
        rw [hi] at ht
        subst ht
        exact storedWallet_append_same _ _ _ _ hwf2
      · rw [storedWallet_append_ne _ _ _ he]
        exact storedWallet_append_same _ _ _ _ hwf1

/-- C20, amended, at the amount "abc"; the amounts "" and "-5" are rejected with a syntax
    error in the same way. -/
theorem publish_unparsable_witness :
    (storedWallet sampleLedger "bob" = some ⟨3, ⟨"bank", 3, "d0", "0"⟩⟩ ∧
      storedWallet sampleLedger "alice" = some ⟨10, ⟨"bank", 10, "d0", "0"⟩⟩ ∧
      (Env.quiet "tx1").putFails 0 "bob" = false ∧ (Env.quiet "tx1").putFails 1 "alice" = false ∧
      (parseUint "abc").2 = NumErr.syntaxErr ∧ (parseUint "").2 = NumErr.syntaxErr ∧
      (parseUint "-5").2 = NumErr.syntaxErr) ∧
    ((publish (Env.quiet "tx1") sampleLedger ["alice", "bob", "abc", "d1"]).1
        = Response.success "" ∧
      storedWallet (publish (Env.quiet "tx1") sampleLedger ["alice", "bob", "abc", "d1"]).2 "bob"
        = some ⟨3, ⟨"alice", 0, "d1", "0"⟩⟩ ∧
      storedWallet (publish (Env.quiet "tx1") sampleLedger ["alice", "bob", "abc", "d1"]).2 "alice"
        = some ⟨10, ⟨"bob", 0, "d1", "0"⟩⟩) :=
  ⟨⟨by decide, by decide, by decide, by decide, by decide, by decide, by decide⟩,
    publish_unparsable (Env.quiet "tx1") sampleLedger "alice" "bob" "abc" "d1"
      ⟨3, ⟨"bank", 3, "d0", "0"⟩⟩ ⟨10, ⟨"bank", 10, "d0", "0"⟩⟩
      (by decide) (by decide) (by decide) (by decide) (by decide)⟩

/-! ## Persisted record shape (C17) -/

/-- C17, the code at every wallet: the stored encoding parses as a JSON object whose two
    top-level keys are "balance" and "TxInfo" (not "txInfo"), the latter an object with the
    keys "trader", "amount", "date" and "txType". -/
theorem wallet_encoding_shape (w : Wallet) :
    parseJSON (jsonMarshalWallet w).data =
      some (JSON.obj [("balance".data, JSON.num (formatUintChars w.Balance)),
        ("TxInfo".data,
          JSON.obj [("trader".data, JSON.str w.TxInfo.Trader.data),
            ("amount".data, JSON.num (formatUintChars w.TxInfo.Amount)),
            ("date".data, JSON.str w.TxInfo.Date.data),
            ("txType".data, JSON.str w.TxInfo.TxType.data)])]) ∧
      "TxInfo".data ≠ "txInfo".data := by
  refine ⟨?_, by decide⟩
  simp only [jsonMarshalWallet, parseJSON_encodeWallet]
  rfl

theorem TxPatch.tx_apply_andThen (p q : TxPatch) (t : Transaction) :
    (p.andThen q).apply t = q.apply (p.apply t) := by
  cases p with
  | mk a b c d =>
    cases q with
    | mk a2 b2 c2 d2 =>
      cases a2 <;> cases b2 <;> cases c2 <;> cases d2 <;> rfl

theorem TxPatch.tx_apply_apply (p : TxPatch) (t : Transaction) : p.apply (p.apply t) = p.apply t := by
  cases p with
  | mk a b c d => cases a <;> cases b <;> cases c <;> cases d <;> rfl

theorem WalletPatch.wallet_apply_andThen (p q : WalletPatch) (w : Wallet) :
    (p.andThen q).apply w = q.apply (p.apply w) := by
  cases p with
  | mk b t =>
    cases q with
    | mk b2 t2 =>
      simp only [WalletPatch.andThen, WalletPatch.apply, TxPatch.tx_apply_andThen]
      cases b2 <;> rfl

theorem WalletPatch.wallet_apply_apply (p : WalletPatch) (w : Wallet) :
    p.apply (p.apply w) = p.apply w := by
  cases p with
  | mk b t =>
    simp only [WalletPatch.apply, TxPatch.tx_apply_apply]
    cases b <;> rfl

theorem decodeUint_patch (v : JSON) : ∃ o : Option Nat, ∀ old, decodeUint v old = o.getD old := by
  cases v with
  | num lit =>
    by_cases h : (parseUintChars lit).2 = NumErr.ok
    · exact ⟨some (parseUintChars lit).1, fun old => by simp [decodeUint, h]⟩
    · exact ⟨none, fun old => by simp [decodeUint, h]⟩
  | _ => exact ⟨none, fun old => rfl⟩

theorem decodeString_patch (v : JSON) :
    ∃ o : Option String, ∀ old, decodeString v old = o.getD old := by
  cases v with
  | str s => exact ⟨some (String.mk s), fun old => rfl⟩
  | _ => exact ⟨none, fun old => rfl⟩

theorem decodeTransactionField_patch (kv : List Char × JSON) :
    ∃ p : TxPatch, ∀ t, decodeTransactionField t kv = p.apply t := by
  obtain ⟨os, hs⟩ := decodeString_patch kv.2
  obtain ⟨ou, hu⟩ := decodeUint_patch kv.2
  unfold decodeTransactionField
  split_ifs
  · exact ⟨⟨os, none, none, none⟩, fun t => by simp [TxPatch.apply, hs]⟩
  · exact ⟨⟨none, ou, none, none⟩, fun t => by simp [TxPatch.apply, hu]⟩
  · exact ⟨⟨none, none, os, none⟩, fun t => by simp [TxPatch.apply, hs]⟩
  · exact ⟨⟨none, none, none, os⟩, fun t => by simp [TxPatch.apply, hs]⟩
  · exact ⟨⟨none, none, none, none⟩, fun t => rfl⟩

theorem decodeTransaction_patch (v : JSON) :
    ∃ p : TxPatch, ∀ t, decodeTransaction v t = p.apply t := by
  have hfold : ∀ kvs : List (List Char × JSON),
      ∃ p : TxPatch, ∀ t, kvs.foldl decodeTransactionField t = p.apply t := by
    intro kvs
    induction kvs with
    | nil => exact ⟨⟨none, none, none, none⟩, fun t => rfl⟩
    | cons kv kvs ih =>
      obtain ⟨p, hp⟩ := decodeTransactionField_patch kv
      obtain ⟨q, hq⟩ := ih
      exact ⟨p.andThen q, fun t => by
        rw [List.foldl_cons, hp, hq, TxPatch.tx_apply_andThen]⟩
  cases v with
  | obj kvs => exact hfold kvs
  | _ => exact ⟨⟨none, none, none, none⟩, fun t => rfl⟩

theorem decodeWalletField_patch (kv : List Char × JSON) :
    ∃ p : WalletPatch, ∀ w, decodeWalletField w kv = p.apply w := by
  obtain ⟨ou, hu⟩ := decodeUint_patch kv.2
  obtain ⟨pt, ht⟩ := decodeTransaction_patch kv.2
  unfold decodeWalletField
  split_ifs
  · exact ⟨⟨ou, ⟨none, none, none, none⟩⟩, fun w => by
      simp [WalletPatch.apply, TxPatch.apply, hu]⟩
  · exact ⟨⟨none, pt⟩, fun w => by simp [WalletPatch.apply, ht]⟩
  · exact ⟨⟨none, ⟨none, none, none, none⟩⟩, fun w => rfl⟩

theorem decodeWallet_patch (v : JSON) :
    ∃ p : WalletPatch, ∀ w, decodeWallet v w = p.apply w := by
  have hfold : ∀ kvs : List (List Char × JSON),
      ∃ p : WalletPatch, ∀ w, kvs.foldl decodeWalletField w = p.apply w := by
    intro kvs
    induction kvs with
    | nil => exact ⟨⟨none, ⟨none, none, none, none⟩⟩, fun w => rfl⟩
    | cons kv kvs ih =>
      obtain ⟨p, hp⟩ := decodeWalletField_patch kv
      obtain ⟨q, hq⟩ := ih
      exact ⟨p.andThen q, fun w => by
        rw [List.foldl_cons, hp, hq, WalletPatch.wallet_apply_andThen]⟩
  cases v with
  | obj kvs => exact hfold kvs
  | _ => exact ⟨⟨none, ⟨none, none, none, none⟩⟩, fun w => rfl⟩

/-- Decoding the same input a second time changes nothing. -/
theorem jsonUnmarshalWallet_idem (d : String) (w : Wallet) :
    jsonUnmarshalWallet d (jsonUnmarshalWallet d w) = jsonUnmarshalWallet d w := by
  unfold jsonUnmarshalWallet
  cases parseJSON d.data with
  | none => rfl
  | some v =>
    obtain ⟨p, hp⟩ := decodeWallet_patch v
    simp only [hp, WalletPatch.wallet_apply_apply]

theorem historyLoop_eq_replay (env : Env) (key : String) (hn : ∀ i, env.nextErr key i = none)
    (revs : List Rev) : ∀ (i : Nat) (w : Wallet) (acc : List GetHistory),
    historyLoop env key revs i w acc = Except.ok (acc ++ replayHistory w revs) := by
  induction revs with
  | nil => intro i w acc; simp [historyLoop, replayHistory]
  | cons r rs ih =>
    intro i w acc
    cases hv : r.Value with
    | none =>
      simp only [historyLoop, hn, hv, unmarshalValue, replayHistory, ih]
      simp
    | some d =>
      simp only [historyLoop, hn, hv, unmarshalValue, replayHistory, ih,
        jsonUnmarshalWallet_idem]
      simp

theorem replayHistory_txIds (revs : List Rev) : ∀ w : Wallet,
    (replayHistory w revs).map GetHistory.TxId = revs.map Rev.TxId := by
  induction revs with
  | nil => intro w; rfl
  | cons r rs ih =>
    intro w
    cases hv : r.Value with
    | none => simp [replayHistory, hv, ih]
    | some d => simp [replayHistory, hv, ih]

theorem replayHistory_eq_alone (revs : List Rev)
    (h : ∀ r ∈ revs, r.Value = none ∨ ∃ w : Wallet, w.wf ∧ r.Value = some (jsonMarshalWallet w)) :
    ∀ w0 : Wallet, replayHistory w0 revs = historyAlone revs := by
  induction revs with
  | nil => intro w0; rfl
  | cons r rs ih =>
    intro w0
    have ih2 := ih (fun r hr => h r (by simp [hr]))
    rcases h r (by simp) with hv | ⟨w, hwf, hv⟩
    · simp [replayHistory, historyAlone, hv, decodeAlone, ih2]
    · simp only [replayHistory, historyAlone, hv, decodeAlone, List.map_cons,
        jsonUnmarshalWallet_jsonMarshalWallet _ _ hwf]
      rw [ih2 w]
      rfl

/-! ## History replay (C11) -/

/-- C11, as stated, fails: for the key `k` of `staleLedger`, whose second revision holds
    the text `null`, the second entry of the returned history carries the wallet of the
    first revision (balance 7), while decoding `null` alone gives the zero wallet. -/
theorem history_replay_counterexample :
    historyOf staleLedger "k" =
        [⟨"k", "t1", some (jsonMarshalWallet ⟨7, ⟨"bank", 7, "d0", "0"⟩⟩)⟩,
          ⟨"k", "t2", some "null"⟩] ∧
      get_txList (Env.quiet "tx1") staleLedger ["k"] =
        (Response.success (jsonMarshalHistory
          [⟨"t1", ⟨7, ⟨"bank", 7, "d0", "0"⟩⟩⟩, ⟨"t2", ⟨7, ⟨"bank", 7, "d0", "0"⟩⟩⟩]),
          staleLedger) ∧
      historyAlone (historyOf staleLedger "k") =
        [⟨"t1", ⟨7, ⟨"bank", 7, "d0", "0"⟩⟩⟩, ⟨"t2", Wallet.zero⟩] ∧
      jsonMarshalHistory
          [⟨"t1", ⟨7, ⟨"bank", 7, "d0", "0"⟩⟩⟩, ⟨"t2", ⟨7, ⟨"bank", 7, "d0", "0"⟩⟩⟩] ≠
        jsonMarshalHistory (historyAlone (historyOf staleLedger "k")) := by
  decide

/-- C11, amended: when the store returns the revisions of a key without error,
    `get_txList` returns the encoding of the history in which the i-th entry has the
    identifier of the i-th revision and, as value, the zero wallet for an absent value and
    otherwise the value decoded into the wallet left by the revisions before it; the
    entries are as many as the revisions and in their order, and when every present value
    is the encoding of a wallet each entry is the revision decoded on its own. -/
theorem history_replay (env : Env) (l : Ledger) (a : String)
    (hh : env.historyErr a = none) (hn : ∀ i, env.nextErr a i = none) :
    get_txList env l [a] =
        (Response.success (jsonMarshalHistory (replayHistory Wallet.zero (historyOf l a))), l) ∧
      (replayHistory Wallet.zero (historyOf l a)).map GetHistory.TxId
        = (historyOf l a).map Rev.TxId ∧
      (replayHistory Wallet.zero (historyOf l a)).length = (historyOf l a).length ∧
      ((∀ r ∈ historyOf l a,
          r.Value = none ∨ ∃ w : Wallet, w.wf ∧ r.Value = some (jsonMarshalWallet w)) →
        replayHistory Wallet.zero (historyOf l a) = historyAlone (historyOf l a)) := by
  have hids := replayHistory_txIds (historyOf l a) Wallet.zero
  refine ⟨?_, hids, ?_, fun h => replayHistory_eq_alone _ h _⟩
  · simp [get_txList, hh, historyLoop_eq_replay env a hn]
  · have := congrArg List.length hids
    simpa using this

/-- C11, amended, at the key `k` of `tombstoneLedger`: three entries, the second one the
    zero wallet. -/
theorem history_replay_witness :
    ((Env.quiet "tx1").historyErr "k" = none ∧ (∀ i, (Env.quiet "tx1").nextErr "k" i = none) ∧
      (∀ r ∈ historyOf tombstoneLedger "k",
        r.Value = none ∨ ∃ w : Wallet, w.wf ∧ r.Value = some (jsonMarshalWallet w))) ∧
    (get_txList (Env.quiet "tx1") tombstoneLedger ["k"] =
        (Response.success (jsonMarshalHistory
          (replayHistory Wallet.zero (historyOf tombstoneLedger "k"))), tombstoneLedger) ∧
      (replayHistory Wallet.zero (historyOf tombstoneLedger "k")).map GetHistory.TxId
        = (historyOf tombstoneLedger "k").map Rev.TxId ∧
      (replayHistory Wallet.zero (historyOf tombstoneLedger "k")).length
        = (historyOf tombstoneLedger "k").length) ∧
    replayHistory Wallet.zero (historyOf tombstoneLedger "k")
      = historyAlone (historyOf tombstoneLedger "k") ∧
    historyAlone (historyOf tombstoneLedger "k") =
      [⟨"t1", ⟨7, ⟨"bank", 7, "d0", "0"⟩⟩⟩, ⟨"t2", Wallet.zero⟩,
        ⟨"t3", ⟨9, ⟨"bank", 2, "d1", "0"⟩⟩⟩] :=
  have hcomplete : ∀ r ∈ historyOf tombstoneLedger "k",
      r.Value = none ∨ ∃ w : Wallet, w.wf ∧ r.Value = some (jsonMarshalWallet w) := by
    intro r hr
    have hmem : r ∈ tombstoneLedger := (List.mem_filter.mp hr).1
    simp only [tombstoneLedger, List.mem_cons, List.mem_singleton, List.not_mem_nil,
      or_false] at hmem
    rcases hmem with rfl | rfl | rfl
    · exact Or.inr ⟨_, by decide, rfl⟩
    · exact Or.inl rfl
    · exact Or.inr ⟨_, by decide, rfl⟩
  have t := history_replay (Env.quiet "tx1") tombstoneLedger "k" rfl (fun _ => rfl)
  ⟨⟨rfl, fun _ => rfl, hcomplete⟩, ⟨t.1, t.2.1, t.2.2.1⟩, t.2.2.2 hcomplete, by decide⟩

theorem historyOf_append_same (l : Ledger) (r : Rev) :
    historyOf (l ++ [r]) r.key = historyOf l r.key ++ [r] := by
  simp [historyOf, List.filter_append]

/-- A successful call that has `acc` as exactly one of its wallets appends one revision of
    `acc`, the encoding of the wallet then stored under `acc`. -/
theorem Call.run_appends (c : Call) (acc : String) (l : Ledger)
    (hok : (c.run l).1.isError = false) (ht : c.touchesOnce acc = true) :
    ∃ (w : Wallet) (txid : String), w.wf ∧
      historyOf (c.run l).2 acc = historyOf l acc ++ [⟨acc, txid, some (jsonMarshalWallet w)⟩] ∧
      storedWallet (c.run l).2 acc = some w := by
  cases c with
  | publish env a0 a1 a2 a3 =>
    simp only [Call.touchesOnce, Call.keys, Bool.and_eq_true, Bool.or_eq_true,
      decide_eq_true_eq, Bool.not_eq_true', decide_eq_false_iff_not] at ht
    obtain ⟨hacc, hne⟩ := ht
    simp only [Call.run] at hok ⊢
    obtain ⟨aBytes, tBytes, _, _, _, _, heq⟩ := publish_success env l a0 a1 a2 a3 hok
    rw [heq]
    have hne2 : a1 ≠ a0 := fun e => hne e.symm
    rcases hacc with h | h
    · subst h
      exact ⟨_, env.txID, publishAfter_wf _ _ _ _,
        by rw [historyOf_append_same (l ++ [_]) ⟨a0, env.txID, _⟩,
          historyOf_append_ne _ _ _ hne2],
        storedWallet_append_same _ _ _ _ (publishAfter_wf _ _ _ _)⟩
    · subst h
      exact ⟨_, env.txID, publishAfter_wf _ _ _ _,
        by rw [historyOf_append_ne _ _ _ hne, historyOf_append_same l ⟨a1, env.txID, _⟩],
        by rw [storedWallet_append_ne _ _ _ hne]
           exact storedWallet_append_same _ _ _ _ (publishAfter_wf _ _ _ _)⟩
  | transfer env a0 a1 a2 a3 a4 =>
    simp only [Call.touchesOnce, Call.keys, Bool.and_eq_true, Bool.or_eq_true,
      decide_eq_true_eq, Bool.not_eq_true', decide_eq_false_iff_not] at ht
    obtain ⟨hacc, hne⟩ := ht
    simp only [Call.run] at hok ⊢
    obtain ⟨sBytes, rBytes, _, _, _, _, _, heq⟩ := transfer_success env l a0 a1 a2 a3 a4 hok
    rw [heq]
    have hne2 : a1 ≠ a0 := fun e => hne e.symm
    rcases hacc with h | h
    · subst h
      exact ⟨_, env.txID, senderAfter_wf _ _ _ _ _,
        by rw [historyOf_append_ne _ _ _ hne2, historyOf_append_same l ⟨a0, env.txID, _⟩],
        by rw [storedWallet_append_ne _ _ _ hne2]
           exact storedWallet_append_same _ _ _ _ (senderAfter_wf _ _ _ _ _)⟩
    · subst h
      exact ⟨_, env.txID, receiverAfter_wf _ _ _ _ _,
        by rw [historyOf_append_same (l ++ [_]) ⟨a1, env.txID, _⟩,
          historyOf_append_ne _ _ _ hne],
        storedWallet_append_same _ _ _ _ (receiverAfter_wf _ _ _ _ _)⟩

/-- The revisions of `acc` that a run of successful calls appends, each call having `acc`
    as exactly one of its wallets: one per call, each the encoding of the wallet stored
    under `acc` after that call. -/
theorem runCalls_history (acc : String) (cs : List Call) : ∀ l : Ledger,
    allSucceed l cs = true → cs.all (Call.touchesOnce acc) = true →
    ∃ revs : List Rev,
      historyOf (finalLedger l cs) acc = historyOf l acc ++ revs ∧
      (∀ r ∈ revs, r.Value = none ∨ ∃ w : Wallet, w.wf ∧ r.Value = some (jsonMarshalWallet w)) ∧
      (historyAlone revs).map (fun h => some h.Value)
        = (runCalls l cs).map (fun l => storedWallet l acc) := by
  induction cs with
  | nil =>
    intro l _ _
    exact ⟨[], by simp [finalLedger], by simp, by simp [historyAlone, runCalls]⟩
  | cons c cs ih =>
    intro l hok ht
    simp only [allSucceed, Bool.and_eq_true, Bool.not_eq_true'] at hok
    simp only [List.all_cons, Bool.and_eq_true] at ht
    obtain ⟨w, txid, hwf, hhist, hst⟩ := Call.run_appends c acc l hok.1 ht.1
    obtain ⟨revs, hrevs, hcomplete, hvals⟩ := ih (c.run l).2 hok.2 ht.2
    refine ⟨⟨acc, txid, some (jsonMarshalWallet w)⟩ :: revs, ?_, ?_, ?_⟩
    · simp only [finalLedger]
      rw [hrevs, hhist]
      simp
    · intro r hr
      rcases List.mem_cons.mp hr with h | h
      · subst h
        exact Or.inr ⟨w, hwf, rfl⟩
      · exact hcomplete r h
    · have hd : decodeAlone (some (jsonMarshalWallet w)) = w :=
        jsonUnmarshalWallet_jsonMarshalWallet _ _ hwf
      have hcons : historyAlone (⟨acc, txid, some (jsonMarshalWallet w)⟩ :: revs) =
          ⟨txid, decodeAlone (some (jsonMarshalWallet w))⟩ :: historyAlone revs := rfl
      rw [hcons, List.map_cons, hd, hvals]
      simp only [runCalls, List.map_cons, hst]

/-! ## History after a run of mutations (C12) -/

/-- C12, as stated, fails: `carol` is created and then subjected to one successful
    mutating call, a transfer of 0 from `carol` to `carol`; each of its two writes appends
    a revision, so `get_txList` returns three entries and not two. And `acc`, created by
    `init_wallet` over a wallet that an earlier `init_wallet` created, has two entries
    after no mutating call at all. -/
theorem history_tracks_mutations_counterexample :
    historyOf sampleLedger "carol" = [] ∧
      (init_wallet (Env.quiet "tx1") sampleLedger ["carol", "bank", "d0"]).1
        = Response.success "" ∧
      (transfer (Env.quiet "tx2")
        (init_wallet (Env.quiet "tx1") sampleLedger ["carol", "bank", "d0"]).2
        ["carol", "carol", "0", "1", "d1"]).1 = Response.success "tx2" ∧
      (get_txList (Env.quiet "tx3")
        (transfer (Env.quiet "tx2")
          (init_wallet (Env.quiet "tx1") sampleLedger ["carol", "bank", "d0"]).2
          ["carol", "carol", "0", "1", "d1"]).2 ["carol"]).1 =
        Response.success (jsonMarshalHistory
          [⟨"tx1", ⟨0, ⟨"bank", 0, "d0", "10"⟩⟩⟩, ⟨"tx2", ⟨0, ⟨"carol", 0, "d1", "1"⟩⟩⟩,
            ⟨"tx2", ⟨0, ⟨"carol", 0, "d1", "2"⟩⟩⟩]) ∧
      (init_wallet (Env.quiet "tx5") freshLedger ["acc", "root", "d2"]).1
        = Response.success "" ∧
      (get_txList (Env.quiet "tx6")
        (init_wallet (Env.quiet "tx5") freshLedger ["acc", "root", "d2"]).2 ["acc"]).1 =
        Response.success (jsonMarshalHistory
          [⟨"tx2", ⟨0, ⟨"root", 0, "d0", "10"⟩⟩⟩, ⟨"tx5", ⟨0, ⟨"root", 0, "d2", "10"⟩⟩⟩]) := by
  decide

/-- C12, amended: let `acc` have no revision, be created by a successful `init_wallet`
    and then go through `N` successful `publish` or `transfer` calls, each with `acc` as
    exactly one of its two wallets. Then `get_txList` of `acc` returns the encoding of
    `N + 1` entries, the first with balance 0, and the wallet in the i-th entry is the
    wallet stored under `acc` right after the creation (i = 0) or after the i-th call. -/
theorem history_tracks_mutations (env0 envR : Env) (l0 : Ledger) (acc a1 a2 : String)
    (calls : List Call) (hfresh : historyOf l0 acc = [])
    (hinit : (init_wallet env0 l0 [acc, a1, a2]).1.isError = false)
    (hok : allSucceed (init_wallet env0 l0 [acc, a1, a2]).2 calls = true)
    (htouch : calls.all (Call.touchesOnce acc) = true)
    (hh : envR.historyErr acc = none) (hn : ∀ i, envR.nextErr acc i = none) :
    ∃ history : List GetHistory,
      get_txList envR (finalLedger (init_wallet env0 l0 [acc, a1, a2]).2 calls) [acc] =
        (Response.success (jsonMarshalHistory history),
          finalLedger (init_wallet env0 l0 [acc, a1, a2]).2 calls) ∧
      history.length = calls.length + 1 ∧
      history.map (fun h => some h.Value) =
        ((init_wallet env0 l0 [acc, a1, a2]).2 ::
          runCalls (init_wallet env0 l0 [acc, a1, a2]).2 calls).map
          (fun l => storedWallet l acc) ∧
      (history.map (fun h => h.Value.Balance)).head? = some 0 := by
  have hput : env0.putFails 0 acc = false := by
    by_contra hc
    simp [init_wallet, putState, hc, Response.isError] at hinit
  have hw0 : (⟨0, ⟨a1, 0, a2, "10"⟩⟩ : Wallet).wf := by unfold Wallet.wf; simp
  rw [init_wallet_accepted env0 l0 acc a1 a2 hput] at hok ⊢
  simp only at hok ⊢
  obtain ⟨revs, hrevs, hcomplete, hvals⟩ := runCalls_history acc calls _ hok htouch
  have hfirst := historyOf_append_same l0 ⟨acc, env0.txID, some (jsonMarshalWallet ⟨0, ⟨a1, 0, a2, "10"⟩⟩)⟩
  simp only [hfresh, List.nil_append] at hfirst
  rw [hfirst] at hrevs
  have hall : ∀ r ∈ historyOf (finalLedger
      (l0 ++ [⟨acc, env0.txID, some (jsonMarshalWallet ⟨0, ⟨a1, 0, a2, "10"⟩⟩)⟩]) calls) acc,
      r.Value = none ∨ ∃ w : Wallet, w.wf ∧ r.Value = some (jsonMarshalWallet w) := by
    intro r hr
    rw [hrevs] at hr
    rcases List.mem_append.mp hr with h | h
    · rw [List.mem_singleton] at h
      subst h
      exact Or.inr ⟨_, hw0, rfl⟩
    · exact hcomplete r h
  have hd : decodeAlone (some (jsonMarshalWallet ⟨0, ⟨a1, 0, a2, "10"⟩⟩))
      = ⟨0, ⟨a1, 0, a2, "10"⟩⟩ := jsonUnmarshalWallet_jsonMarshalWallet _ _ hw0
  have halone : historyAlone (historyOf (finalLedger
      (l0 ++ [⟨acc, env0.txID, some (jsonMarshalWallet ⟨0, ⟨a1, 0, a2, "10"⟩⟩)⟩]) calls) acc)
      = ⟨env0.txID, ⟨0, ⟨a1, 0, a2, "10"⟩⟩⟩ :: historyAlone revs := by
    rw [hrevs]
    simp only [historyAlone, List.singleton_append, List.map_cons, hd]
  have hlen : (historyAlone revs).length = calls.length := by
    have := congrArg List.length hvals
    simp only [List.length_map] at this
    rw [this]
    clear hvals hrevs hcomplete hall halone this hok
    generalize l0 ++ [⟨acc, env0.txID, some (jsonMarshalWallet ⟨0, ⟨a1, 0, a2, "10"⟩⟩)⟩] = l
    induction calls generalizing l with
    | nil => rfl
    | cons c cs ih =>
      simp only [List.all_cons, Bool.and_eq_true] at htouch
      simp [runCalls, ih htouch.2]
  refine ⟨historyAlone (historyOf (finalLedger
      (l0 ++ [⟨acc, env0.txID, some (jsonMarshalWallet ⟨0, ⟨a1, 0, a2, "10"⟩⟩)⟩]) calls) acc),
    ?_, ?_, ?_, ?_⟩
  · rw [← replayHistory_eq_alone _ hall Wallet.zero]
    simp [get_txList, hh, historyLoop_eq_replay envR acc hn]
  · rw [halone, List.length_cons, hlen]
  · rw [halone, List.map_cons, hvals, List.map_cons,
      storedWallet_append_same l0 acc env0.txID _ hw0]
  · rw [halone]
    rfl

/-- C12, amended, for `carol` created on `sampleLedger` and then minted 100 and debited
    30: the history has three entries with balances 0, 100 and 70. -/
theorem history_tracks_mutations_witness :
    (historyOf sampleLedger "carol" = [] ∧
      (init_wallet (Env.quiet "tx1") sampleLedger ["carol", "bank", "d0"]).1.isError = false ∧
      allSucceed (init_wallet (Env.quiet "tx1") sampleLedger ["carol", "bank", "d0"]).2
        sampleCalls = true ∧
      sampleCalls.all (Call.touchesOnce "carol") = true ∧
      (Env.quiet "tx4").historyErr "carol" = none ∧
      (∀ i, (Env.quiet "tx4").nextErr "carol" i = none)) ∧
    (∃ history : List GetHistory,
      get_txList (Env.quiet "tx4")
          (finalLedger (init_wallet (Env.quiet "tx1") sampleLedger
            ["carol", "bank", "d0"]).2 sampleCalls) ["carol"] =
        (Response.success (jsonMarshalHistory history),
          finalLedger (init_wallet (Env.quiet "tx1") sampleLedger
            ["carol", "bank", "d0"]).2 sampleCalls) ∧
      history.length = sampleCalls.length + 1 ∧
      history.map (fun h => some h.Value) =
        ((init_wallet (Env.quiet "tx1") sampleLedger ["carol", "bank", "d0"]).2 ::
          runCalls (init_wallet (Env.quiet "tx1") sampleLedger
            ["carol", "bank", "d0"]).2 sampleCalls).map
          (fun l => storedWallet l "carol") ∧
      (history.map (fun h => h.Value.Balance)).head? = some 0) ∧
    (get_txList (Env.quiet "tx4")
        (finalLedger (init_wallet (Env.quiet "tx1") sampleLedger
          ["carol", "bank", "d0"]).2 sampleCalls) ["carol"]).1 =
      Response.success (jsonMarshalHistory
        [⟨"tx1", ⟨0, ⟨"bank", 0, "d0", "10"⟩⟩⟩, ⟨"tx2", ⟨100, ⟨"alice", 100, "d1", "0"⟩⟩⟩,
          ⟨"tx3", ⟨70, ⟨"bob", 30, "d2", "5"⟩⟩⟩]) :=
  ⟨⟨by decide, by decide, by decide, by decide, rfl, fun _ => rfl⟩,
    history_tracks_mutations (Env.quiet "tx1") (Env.quiet "tx4") sampleLedger "carol" "bank" "d0"
      sampleCalls (by decide) (by decide) (by decide) (by decide) rfl (fun _ => rfl),
    by decide⟩

end RcChaincode
